import Mathlib

/-!
Verification of the OBDD visualizer core: graph data model, editor
operations, and the JSON serializer, shallowly embedded from
obdd_visualizer.py.  Rendering calls (canvas drawing, labels) are pure
side channels and are omitted; every state field and branch that the
model logic reads or writes is embedded.
-/

namespace OBDDV

abbrev NodeId := Nat

/-- Mirror of the Python class Node: id, position, label, terminal flag,
outgoing edge list of (target id, edge type) pairs, and the root flag.
The tkinter canvas-item cache is rendering-only and omitted. -/
structure Node where
  id : NodeId
  x : Int
  y : Int
  label : String
  is_terminal : Bool
  edges_out : List (NodeId × Nat)
  is_root : Bool
deriving DecidableEq

/-- Node.__init__: fresh node with no edges and is_root false. -/
def Node.init (node_id : NodeId) (x y : Int) (label : String) (is_terminal : Bool) : Node :=
  { id := node_id, x := x, y := y, label := label, is_terminal := is_terminal,
    edges_out := [], is_root := false }

/-- Node.add_edge: drop any existing edge of the same type, then append. -/
def Node.add_edge (n : Node) (target : NodeId) (edge_type : Nat) : Node :=
  { n with edges_out := (n.edges_out.filter (fun p => p.2 != edge_type)) ++ [(target, edge_type)] }

/-- Node.clear_edges: remove all outgoing edges. -/
def Node.clear_edges (n : Node) : Node :=
  { n with edges_out := [] }

/-- Node.get_edge_target: first edge of the given type, if any. -/
def Node.get_edge_target (n : Node) (edge_type : Nat) : Option NodeId :=
  match n.edges_out.find? (fun p => p.2 == edge_type) with
  | some p => some p.1
  | none => none

/-- The id sequence of a node list (the dict keys, in insertion order). -/
def ids (ns : List Node) : List NodeId := ns.map Node.id

/-- Dict lookup nodes[i]: first node with the given id. -/
def findNode (ns : List Node) (i : NodeId) : Option Node :=
  ns.find? (fun n => n.id == i)

/-- Dict membership test: i in nodes. -/
def memberId (ns : List Node) (i : NodeId) : Bool :=
  ns.any (fun n => n.id == i)

/-- In-place mutation of the node stored under id i. -/
def updNode (ns : List Node) (i : NodeId) (f : Node → Node) : List Node :=
  ns.map (fun n => if n.id == i then f n else n)

/-- The edge relation (source id, edge type) to target id of a graph. -/
def edgeRel (ns : List Node) (i : NodeId) (k : Nat) : Option NodeId :=
  match findNode ns i with
  | some n => n.get_edge_target k
  | none => none

/-- The root id as computed by OBDDVisualizer.get_root_id: the first node
with is_root set, if any. -/
def get_root_id (ns : List Node) : Option NodeId :=
  match ns.find? (fun n => n.is_root) with
  | some n => some n.id
  | none => none

/-- Number of nodes flagged as root. -/
def rootCount (ns : List Node) : Nat := (ns.filter (fun n => n.is_root)).length

/-- The graph invariant: zero or one node has is_root set. -/
def atMostOneRoot (ns : List Node) : Prop := rootCount ns ≤ 1

/-!  Serializer.  A JSON node entry is modelled with explicit
key-presence flags for the five required fields; low and high use
Option, identifying an absent key with a null value exactly as
dict.get does in from_dict. -/

structure RawEntry where
  hid : Bool
  rid : NodeId
  hlabel : Bool
  rlabel : String
  hx : Bool
  rx : Int
  hy : Bool
  ry : Int
  hterm : Bool
  rterm : Bool
  rlow : Option NodeId
  rhigh : Option NodeId
deriving DecidableEq

/-- The document: presence flag for the nodes key, the entry list, and
the root reference (absent or null collapse to none, as data.get does). -/
structure RawDoc where
  hnodes : Bool
  rnodes : List RawEntry
  rroot : Option NodeId
deriving DecidableEq

/-- Node object built from an entry in the first pass of from_dict. -/
def RawEntry.toNode (e : RawEntry) : Node :=
  Node.init e.rid e.rx e.ry e.rlabel e.rterm

/-- The entry emitted by OBDDSerializer.to_dict for one node: low and
high are included only for non-terminal nodes. -/
def entryOf (n : Node) : RawEntry :=
  { hid := true, rid := n.id, hlabel := true, rlabel := n.label,
    hx := true, rx := n.x, hy := true, ry := n.y,
    hterm := true, rterm := n.is_terminal,
    rlow := if n.is_terminal then none else n.get_edge_target 0,
    rhigh := if n.is_terminal then none else n.get_edge_target 1 }

/-- OBDDSerializer.to_dict. -/
def to_dict (ns : List Node) (root_id : Option NodeId) : RawDoc :=
  { hnodes := true, rnodes := ns.map entryOf, rroot := root_id }

/-- Required-field validation of one entry, in the order from_dict
checks the keys. -/
def checkFields (e : RawEntry) : Except String Unit :=
  if ¬ e.hid then .error "Node is missing id."
  else if ¬ e.hlabel then .error "Node is missing label."
  else if ¬ e.hx then .error "Node is missing x."
  else if ¬ e.hy then .error "Node is missing y."
  else if ¬ e.hterm then .error "Node is missing is_terminal."
  else .ok ()

/-- First pass of from_dict: build the node dict, rejecting missing
fields and duplicate ids. -/
def buildNodes : List RawEntry → List Node → Except String (List Node)
  | [], acc => .ok acc
  | e :: rest, acc =>
    match checkFields e with
    | .error msg => .error msg
    | .ok _ =>
      if memberId acc e.rid then .error "Duplicate node id."
      else buildNodes rest (acc ++ [e.toNode])

/-- Second pass, low edge of one entry. -/
def applyLow (ns : List Node) (e : RawEntry) : Except String (List Node) :=
  match e.rlow with
  | none => .ok ns
  | some l =>
    if memberId ns l then .ok (updNode ns e.rid (fun n => n.add_edge l 0))
    else .error "Low target does not exist."

/-- Second pass, high edge of one entry. -/
def applyHigh (ns : List Node) (e : RawEntry) : Except String (List Node) :=
  match e.rhigh with
  | none => .ok ns
  | some t =>
    if memberId ns t then .ok (updNode ns e.rid (fun n => n.add_edge t 1))
    else .error "High target does not exist."

/-- Second pass of from_dict: walk the entries again and install edges
on non-terminal nodes, validating each referenced target. -/
def applyEdges : List RawEntry → List Node → Except String (List Node)
  | [], ns => .ok ns
  | e :: rest, ns =>
    match findNode ns e.rid with
    | none => .error "KeyError"
    | some node =>
      if node.is_terminal then applyEdges rest ns
      else
        match applyLow ns e with
        | .error msg => .error msg
        | .ok ns1 =>
          match applyHigh ns1 e with
          | .error msg => .error msg
          | .ok ns2 => applyEdges rest ns2

/-- Terminal-label scan of from_dict. -/
def hasTerminalLabeled (ns : List Node) (s : String) : Bool :=
  ns.any (fun n => n.is_terminal && n.label == s)

/-- OBDDSerializer.from_dict: validate and build (nodes, root id), or
report the first violated rule. -/
def from_dict (d : RawDoc) : Except String (List Node × Option NodeId) :=
  if ¬ d.hnodes then .error "JSON must include a nodes list."
  else
    match buildNodes d.rnodes [] with
    | .error msg => .error msg
    | .ok ns =>
      if ¬ (hasTerminalLabeled ns "0" && hasTerminalLabeled ns "1") then
        .error "Import requires terminal nodes labeled 0 and 1."
      else
        match applyEdges d.rnodes ns with
        | .error msg => .error msg
        | .ok ns2 =>
          match d.rroot with
          | none => .ok (ns2, none)
          | some r =>
            if memberId ns2 r then .ok (ns2, some r)
            else .error "Root node id does not exist."

/-- The id sequence of a document's node entries. -/
def docIds (d : RawDoc) : List NodeId := d.rnodes.map RawEntry.rid

/-!  The visualizer state and its operations.  Prompts (label dialog,
confirmation boxes) and hit testing are external collaborators; their
outcomes enter as parameters.  Every operation returns the new state
together with how it reported: a warning dialog (rejection), a plain
status-bar message, a silent cancellation, or an uncaught KeyError. -/

inductive Outcome where
  | rejected (msg : String)
  | statusMsg (msg : String)
  | cancelled
  | crash
deriving DecidableEq

/-- Mirror of the OBDDVisualizer fields the core logic reads or writes.
Canvas-item handles are reduced to presence booleans. -/
structure VState where
  nodes : List Node
  next_node_id : Nat
  next_var_index : Nat
  canvas_width : Int
  canvas_height : Int
  selected_node : Option NodeId
  selected_nodes : List NodeId
  connecting_mode : Bool
  connecting_edge_type : Option Nat
  connecting_from_node : Option NodeId
  selecting_box : Bool
  selection_rect : Bool
  selection_additive : Bool
deriving DecidableEq

/-- Set is_root to false on every node. -/
def clearRoots (ns : List Node) : List Node :=
  ns.map (fun n => { n with is_root := false })

/-- OBDDVisualizer.cancel_operation: reset the connecting fields only. -/
def cancel_operation (s : VState) : VState × Outcome :=
  ({ s with
      connecting_mode := false, connecting_edge_type := none,
      connecting_from_node := none },
   Outcome.statusMsg "Operation cancelled - Ready")

/-- OBDDVisualizer.set_root_node: warn when nothing is selected, else
clear every root flag and set it on the selected node.  A selection
naming a vanished id raises KeyError after the flags were cleared. -/
def set_root_node (s : VState) : VState × Outcome :=
  match s.selected_node with
  | none => (s, Outcome.rejected "Please select a node first.")
  | some i =>
    let ns1 := clearRoots s.nodes
    if memberId ns1 i then
      ({ s with nodes := updNode ns1 i (fun n => { n with is_root := true }) },
       Outcome.statusMsg "Set root node")
    else
      ({ s with nodes := ns1 }, Outcome.crash)

/-- OBDDVisualizer.start_edge_connection. -/
def start_edge_connection (s : VState) (edge_type : Nat) : VState × Outcome :=
  match s.selected_node with
  | none => (s, Outcome.rejected "Please select a source node first.")
  | some i =>
    match findNode s.nodes i with
    | none => (s, Outcome.crash)
    | some node =>
      if node.is_terminal then
        (s, Outcome.rejected "Cannot connect from terminal nodes.")
      else
        ({ s with
            connecting_mode := true, connecting_edge_type := some edge_type,
            connecting_from_node := some i },
         Outcome.statusMsg "Connecting")

/-- OBDDVisualizer.delete_outgoing_edges: no terminal check; an empty
edge list just reports a status message. -/
def delete_outgoing_edges (s : VState) : VState × Outcome :=
  match s.selected_node with
  | none => (s, Outcome.rejected "Please select a node first.")
  | some i =>
    match findNode s.nodes i with
    | none => (s, Outcome.crash)
    | some node =>
      if node.edges_out.isEmpty then
        (s, Outcome.statusMsg "Node has no outgoing edges")
      else
        ({ s with nodes := updNode s.nodes i Node.clear_edges },
         Outcome.statusMsg "Deleted outgoing edges")

/-- OBDDVisualizer.delete_node, with the confirmation dialog outcome as
a parameter.  On confirmation: strip incoming references everywhere,
remove the node, clear every root flag when the victim was root, and
reset selection and interaction state. -/
def delete_node (s : VState) (confirmed : Bool) : VState × Outcome :=
  match s.selected_node with
  | none => (s, Outcome.rejected "Please select a node first.")
  | some i =>
    match findNode s.nodes i with
    | none => (s, Outcome.statusMsg "Selected node not found")
    | some node =>
      if node.is_terminal then
        (s, Outcome.rejected "Cannot delete terminal nodes 0 and 1.")
      else if ¬ confirmed then (s, Outcome.cancelled)
      else
        let ns1 := s.nodes.map
          (fun other => { other with edges_out := other.edges_out.filter (fun p => p.1 != i) })
        let ns2 := ns1.filter (fun n => n.id != i)
        let ns3 := if node.is_root then clearRoots ns2 else ns2
        ({ s with
            nodes := ns3, selected_node := none, selected_nodes := [],
            connecting_mode := false, connecting_edge_type := none,
            connecting_from_node := none, selecting_box := false,
            selection_rect := false },
         Outcome.statusMsg "Deleted node")

/-- OBDDVisualizer.clear_all, with the confirmation outcome as a
parameter.  Keeps only terminal nodes, clears their edges, resets the
variable-label counter and the interaction state.  Root flags are not
touched. -/
def clear_all (s : VState) (confirmed : Bool) : VState × Outcome :=
  if ¬ confirmed then (s, Outcome.cancelled)
  else
    let terminal_nodes := s.nodes.filter (fun n => n.is_terminal)
    ({ s with
        nodes := terminal_nodes.map Node.clear_edges,
        next_var_index := 0, selected_node := none, selected_nodes := [],
        connecting_mode := false, connecting_edge_type := none,
        connecting_from_node := none, selecting_box := false,
        selection_rect := false },
     Outcome.statusMsg "Cleared all decision nodes")

def varLabels : List String :=
  ["p", "q", "r", "s", "t", "u", "v", "w", "x", "y", "z"]

/-- OBDDVisualizer.get_next_variable_label as a pure function of the
counter value; the consume flag is handled at the call sites. -/
def get_next_variable_label (index : Nat) : String :=
  if index < varLabels.length then varLabels.getD index "p"
  else "p" ++ toString (index - varLabels.length + 1)

/-- OBDDVisualizer.add_decision_node, with the label-dialog outcome as a
parameter (none models a cancelled dialog).  The counter advance happens
on every confirmed dialog, whatever label was typed.  Placement near the
selection requires a truthy selected id (Python: id 0 is falsy). -/
def add_decision_node (s : VState) (label_input : Option String) : VState × Outcome :=
  let pos : Int × Int :=
    match s.selected_node with
    | some i =>
      if i != 0 && memberId s.nodes i then
        match findNode s.nodes i with
        | some n => (n.x, n.y - 80)
        | none => (s.canvas_width / 2, s.canvas_height / 3)
      else (s.canvas_width / 2, s.canvas_height / 3)
    | none => (s.canvas_width / 2, s.canvas_height / 3)
  let suggested := get_next_variable_label s.next_var_index
  match label_input with
  | none => (s, Outcome.statusMsg "Add node cancelled")
  | some t =>
    let label := if (t.trim).isEmpty then suggested else t.trim
    ({ s with
        next_var_index := s.next_var_index + 1,
        next_node_id := s.next_node_id + 1,
        nodes := s.nodes ++ [Node.init s.next_node_id pos.1 pos.2 label false] },
     Outcome.statusMsg "Added decision node")

/-- Largest id in use (max over dict keys). -/
def maxId (ns : List Node) : Nat := ns.foldl (fun acc n => max acc n.id) 0

/-- OBDDVisualizer.load_from_import: replace the diagram, set is_root
from the imported root id, re-seed both allocators, reset selection and
interaction state. -/
def load_from_import (s : VState) (ns : List Node) (root_id : Option NodeId) : VState :=
  let ns1 := ns.map (fun n => { n with is_root := root_id == some n.id })
  { s with
    nodes := ns1,
    next_node_id := if ns1.isEmpty then 0 else maxId ns1 + 1,
    next_var_index := (ns1.filter (fun n => !n.is_terminal)).length,
    selected_node := none, selected_nodes := [],
    connecting_mode := false, connecting_edge_type := none,
    connecting_from_node := none, selecting_box := false,
    selection_rect := false }

/-- OBDDVisualizer.import_json on an already-parsed document: a
validation failure shows an error dialog and leaves the state alone;
success swaps in the imported graph. -/
def import_json (s : VState) (d : RawDoc) : VState × Outcome :=
  match from_dict d with
  | .error msg => (s, Outcome.rejected ("Could not import file: " ++ msg))
  | .ok (ns, root_id) => (load_from_import s ns root_id, Outcome.statusMsg "Imported OBDD")

/-- The connecting-mode branch of OBDDVisualizer.on_canvas_click: a
click on a node adds the pending edge (when the source still exists)
and always ends connecting mode; a click on empty canvas does nothing.
In connecting mode the edge type is always set, so the default in getD
is never read. -/
def on_canvas_click_connecting (s : VState) (clicked : Option NodeId) : VState :=
  match clicked with
  | none => s
  | some c =>
    let s1 :=
      match s.connecting_from_node with
      | none => s
      | some f =>
        if memberId s.nodes f then
          { s with nodes :=
             updNode s.nodes f (fun n => n.add_edge c (s.connecting_edge_type.getD 0)) }
        else s
    (cancel_operation s1).1

/-- A sequence of set-root commands: before each press the user may
change the primary selection. -/
def applySetRootSeq (s : VState) (sels : List (Option NodeId)) : VState :=
  sels.foldl (fun st sel => (set_root_node { st with selected_node := sel }).1) s

/-!  Concrete fixtures: the two initial terminal nodes created by
create_initial_nodes on the default 800 by 600 canvas, and the initial
application state. -/

def term0 : Node :=
  { id := 0, x := 160, y := 498, label := "0", is_terminal := true,
    edges_out := [], is_root := false }

def term1 : Node :=
  { id := 1, x := 640, y := 498, label := "1", is_terminal := true,
    edges_out := [], is_root := false }

def initialState : VState :=
  { nodes := [term0, term1], next_node_id := 2, next_var_index := 0,
    canvas_width := 800, canvas_height := 600,
    selected_node := none, selected_nodes := [],
    connecting_mode := false, connecting_edge_type := none,
    connecting_from_node := none, selecting_box := false,
    selection_rect := false, selection_additive := false }

/-- A decision node p with low edge to terminal 0, high edge to
terminal 1, marked as root. -/
def nodeP : Node :=
  { id := 2, x := 400, y := 200, label := "p", is_terminal := false,
    edges_out := [(0, 0), (1, 1)], is_root := true }

/-- The scenario graph of the spec: both terminals plus the rooted
decision node p. -/
def sampleG : List Node := [term0, term1, nodeP]

/-- State in which terminal 1 has been made root (reachable via
set_root_node with the terminal selected). -/
def rootTermState : VState :=
  { initialState with nodes := [term0, { term1 with is_root := true }] }

/-- State with terminal 0 as the primary selection. -/
def selTermState : VState :=
  { initialState with selected_node := some 0, selected_nodes := [0] }

/-- State with terminal 1 as the primary selection. -/
def selTerm1State : VState :=
  { initialState with selected_node := some 1, selected_nodes := [1] }

/-- State in the middle of a box selection. -/
def boxSelState : VState :=
  { initialState with selecting_box := true, selection_rect := true }

/-- State holding the scenario graph with node p selected. -/
def delState : VState :=
  { initialState with nodes := sampleG, selected_node := some 2, selected_nodes := [2] }

/-- State holding the scenario graph, connecting a 1-edge from node p. -/
def connState : VState :=
  { initialState with
    nodes := sampleG, connecting_mode := true,
    connecting_edge_type := some 1, connecting_from_node := some 2 }

/-- A document with a 0-labeled terminal but no 1-labeled terminal. -/
def badDoc : RawDoc :=
  { hnodes := true, rnodes := [entryOf term0], rroot := none }

/-- The node object rebuilt by the first pass of from_dict: same id,
position, label and kind, but no edges and no root flag. -/
def resetNode (n : Node) : Node :=
  Node.init n.id n.x n.y n.label n.is_terminal

/-- Edge list produced by installing a low edge and then a high edge on
a fresh node. -/
def canonEdges : Option NodeId → Option NodeId → List (NodeId × Nat)
  | none, none => []
  | some l, none => [(l, 0)]
  | none, some t => [(t, 1)]
  | some l, some t => [(l, 0), (t, 1)]

/-- The node rebuilt by a full from_dict round trip. -/
def reconNode (n : Node) : Node :=
  if n.is_terminal then resetNode n
  else { resetNode n with
         edges_out := canonEdges (n.get_edge_target 0) (n.get_edge_target 1) }

/-- What the round trip does to a stored node: the source node with the
same id, rebuilt; nodes without a source correspondent stay put. -/
def roundTripNode (src : List Node) (m : Node) : Node :=
  match src.find? (fun n2 => n2.id == m.id) with
  | some n2 => reconNode n2
  | none => m

/-!  Lemmas about the list-backed node dictionary. -/

theorem ids_map (f : Node → Node) (h : ∀ n, (f n).id = n.id) (ns : List Node) :
    ids (ns.map f) = ids ns := by
  induction ns with
  | nil => rfl
  | cons a t ih =>
    simp only [ids, List.map_cons] at ih ⊢
    rw [h a, ih]

theorem ids_updNode (ns : List Node) (i : NodeId) (f : Node → Node)
    (h : ∀ n, (f n).id = n.id) : ids (updNode ns i f) = ids ns := by
  unfold updNode
  refine ids_map _ (fun n => ?_) ns
  by_cases hc : (n.id == i) = true <;> simp [hc, h n]

theorem findNode_map (g : Node → Node) (h : ∀ n, (g n).id = n.id) (ns : List Node) (i : NodeId) :
    findNode (ns.map g) i = (findNode ns i).map g := by
  unfold findNode
  rw [List.find?_map]
  have he : ((fun n : Node => n.id == i) ∘ g) = (fun n : Node => n.id == i) := by
    funext n
    simp [Function.comp, h n]
  rw [he]

theorem findNode_updNode (ns : List Node) (i j : NodeId) (f : Node → Node)
    (h : ∀ n, (f n).id = n.id) :
    findNode (updNode ns i f) j =
      (findNode ns j).map (fun n => if n.id == i then f n else n) := by
  unfold updNode
  refine findNode_map _ (fun n => ?_) ns j
  by_cases hc : (n.id == i) = true <;> simp [hc, h n]

theorem memberId_iff (ns : List Node) (i : NodeId) :
    memberId ns i = true ↔ i ∈ ids ns := by
  rw [memberId, List.any_eq_true]
  simp only [ids, List.mem_map, beq_iff_eq]

theorem memberId_of_findNode {ns : List Node} {i : NodeId} {n : Node}
    (h : findNode ns i = some n) : memberId ns i = true := by
  rw [findNode] at h
  have hp : (n.id == i) = true := by simpa using List.find?_some h
  rw [memberId, List.any_eq_true]
  exact ⟨n, List.mem_of_find?_eq_some h, hp⟩

theorem findNode_of_memberId {ns : List Node} {i : NodeId} (h : memberId ns i = true) :
    ∃ n, findNode ns i = some n ∧ n.id = i := by
  cases hf : findNode ns i with
  | some n =>
    refine ⟨n, rfl, ?_⟩
    rw [findNode] at hf
    have := List.find?_some hf
    simpa using this
  | none =>
    exfalso
    rw [findNode, List.find?_eq_none] at hf
    rw [memberId, List.any_eq_true] at h
    obtain ⟨x, hx, hpx⟩ := h
    exact hf x hx hpx

theorem findNode_id {ns : List Node} {i : NodeId} {n : Node} (h : findNode ns i = some n) :
    n.id = i := by
  rw [findNode] at h
  have := List.find?_some h
  simpa using this

theorem findNode_mem {ns : List Node} {i : NodeId} {n : Node} (h : findNode ns i = some n) :
    n ∈ ns := by
  rw [findNode] at h
  exact List.mem_of_find?_eq_some h

theorem findNode_self_of_nodup {ns : List Node} (hnd : (ids ns).Nodup) {n : Node}
    (hm : n ∈ ns) : findNode ns n.id = some n := by
  induction ns with
  | nil => cases hm
  | cons a t ih =>
    have hnd1 : (a.id :: ids t).Nodup := by simpa only [ids, List.map_cons] using hnd
    have hna : a.id ∉ ids t := (List.nodup_cons.mp hnd1).1
    have hnd' : (ids t).Nodup := (List.nodup_cons.mp hnd1).2
    rcases List.mem_cons.mp hm with rfl | hm'
    · simp [findNode]
    · have hne : (a.id == n.id) = false := by
        rw [beq_eq_false_iff_ne]
        intro heq
        exact hna (heq ▸ List.mem_map_of_mem Node.id hm')
      rw [findNode, List.find?_cons]
      simp only [hne]
      simpa [findNode] using ih hnd' hm'

theorem eq_of_findNode_of_nodup {ns : List Node} (hnd : (ids ns).Nodup) {i : NodeId}
    {v m : Node} (hf : findNode ns i = some v) (hm : m ∈ ns) (hid : m.id = i) : m = v := by
  have hself := findNode_self_of_nodup hnd hm
  rw [hid, hf] at hself
  exact (Option.some.inj hself).symm

theorem updNode_not_mem (ns : List Node) (i : NodeId) (f : Node → Node)
    (h : i ∉ ids ns) : updNode ns i f = ns := by
  induction ns with
  | nil => rfl
  | cons a t ih =>
    have h1 : ¬ (i = a.id) := by
      intro hc
      exact h (by simp [ids, hc])
    have h2 : i ∉ ids t := by
      intro hc
      refine h ?_
      have hc' : i ∈ List.map Node.id t := by simpa [ids] using hc
      simp only [ids, List.map_cons]
      exact List.mem_cons_of_mem _ hc'
    have hne : ¬ ((a.id == i) = true) := by
      intro hc
      have heq : a.id = i := by simpa using hc
      exact h1 heq.symm
    simp only [updNode, List.map_cons] at ih ⊢
    rw [if_neg hne, ih h2]

/-!  Lemmas about root counting. -/

theorem rootCount_cons (a : Node) (t : List Node) :
    rootCount (a :: t) = (if a.is_root then 1 else 0) + rootCount t := by
  by_cases hr : a.is_root = true <;>
    simp [rootCount, List.filter_cons, hr, Nat.add_comm]

theorem rootCount_filter_le (p : Node → Bool) (ns : List Node) :
    rootCount (ns.filter p) ≤ rootCount ns := by
  unfold rootCount
  exact List.Sublist.length_le (List.Sublist.filter _ (List.filter_sublist ns))

theorem rootCount_map (f : Node → Node) (h : ∀ n, (f n).is_root = n.is_root)
    (ns : List Node) : rootCount (ns.map f) = rootCount ns := by
  induction ns with
  | nil => rfl
  | cons a t ih =>
    rw [List.map_cons, rootCount_cons, rootCount_cons, h a, ih]

theorem rootCount_clearRoots (ns : List Node) : rootCount (clearRoots ns) = 0 := by
  induction ns with
  | nil => rfl
  | cons a t ih =>
    simp only [clearRoots, List.map_cons] at ih ⊢
    rw [rootCount_cons]
    simpa using ih

theorem ids_clearRoots (ns : List Node) : ids (clearRoots ns) = ids ns :=
  ids_map (fun n => { n with is_root := false }) (fun _ => rfl) ns

theorem rootCount_upd_clear_not_mem (t : List Node) (i : NodeId) (h : i ∉ ids t) :
    rootCount (updNode (clearRoots t) i (fun n => { n with is_root := true })) = 0 := by
  have h2 : i ∉ ids (clearRoots t) := by rwa [ids_clearRoots]
  rw [updNode_not_mem (clearRoots t) i _ h2]
  exact rootCount_clearRoots t

theorem rootCount_set_root (ns : List Node) (i : NodeId) (hnd : (ids ns).Nodup) :
    rootCount (updNode (clearRoots ns) i (fun n => { n with is_root := true })) ≤ 1 := by
  induction ns with
  | nil => simp [clearRoots, updNode, rootCount]
  | cons a t ih =>
    have hnd1 : (a.id :: ids t).Nodup := by simpa only [ids, List.map_cons] using hnd
    have hna : a.id ∉ ids t := (List.nodup_cons.mp hnd1).1
    have hnd' : (ids t).Nodup := (List.nodup_cons.mp hnd1).2
    have hshape : updNode (clearRoots (a :: t)) i (fun n => { n with is_root := true })
        = (if a.id == i then { a with is_root := true } else { a with is_root := false })
          :: updNode (clearRoots t) i (fun n => { n with is_root := true }) := rfl
    rw [hshape, rootCount_cons]
    by_cases hc : (a.id == i) = true
    · have heq : a.id = i := by simpa using hc
      rw [if_pos hc]
      have h0 : rootCount (updNode (clearRoots t) i (fun n => { n with is_root := true })) = 0 :=
        rootCount_upd_clear_not_mem t i (heq ▸ hna)
      simp [h0]
    · rw [if_neg hc]
      have ihr := ih hnd'
      simpa using ihr

/-!  C3: clear_all keeps terminals with their root flags; the variable
label allocator resets; every decision node and edge disappears. -/

/-- C3 (amended): after a confirmed clearAll, every Decision node and
every edge is removed, Terminal nodes survive with their edges cleared
and their root flags untouched, and the label allocator index resets to
0.  The claim that no node keeps isRoot is false: a Terminal root stays
root (see the counterexample). -/
theorem C3_clear_all_behavior (s : VState) :
    (clear_all s true).1.nodes
        = (s.nodes.filter (fun n => n.is_terminal)).map Node.clear_edges ∧
    (∀ n ∈ (clear_all s true).1.nodes, n.is_terminal = true ∧ n.edges_out = []) ∧
    (clear_all s true).1.next_var_index = 0 ∧
    (∀ n ∈ s.nodes, n.is_terminal = true →
      ∃ m ∈ (clear_all s true).1.nodes,
        m.id = n.id ∧ m.label = n.label ∧ m.is_root = n.is_root) := by
  have hsh : (clear_all s true).1.nodes
      = (s.nodes.filter (fun n => n.is_terminal)).map Node.clear_edges := rfl
  refine ⟨hsh, ?_, rfl, ?_⟩
  · intro n hn
    rw [hsh] at hn
    simp only [List.mem_map, List.mem_filter] at hn
    obtain ⟨m, ⟨_, hterm⟩, rfl⟩ := hn
    exact ⟨hterm, rfl⟩
  · intro n hn hterm
    refine ⟨n.clear_edges, ?_, rfl, rfl, rfl⟩
    rw [hsh]
    simp only [List.mem_map, List.mem_filter]
    exact ⟨n, ⟨hn, hterm⟩, rfl⟩

/-- C3 counterexample: with terminal 1 as root, a confirmed clearAll
leaves a node whose isRoot flag is still set, contradicting the claim
that no node at all remains root. -/
theorem C3_counterexample :
    ∃ n ∈ (clear_all rootTermState true).1.nodes, n.is_root = true := by decide

/-!  C4: terminal protection. -/

/-- C4 (amended): with a Terminal as primary selection, deleteNode and
startConnect are rejected with a warning and leave the state
unchanged; clearEdges is not rejected: because terminals have no
outgoing edges it reports a plain no-edges status message and leaves
the state unchanged. -/
theorem C4_terminal_protection (s : VState) (i : NodeId) (n : Node) (conf : Bool) (k : Nat)
    (hsel : s.selected_node = some i)
    (hfind : findNode s.nodes i = some n)
    (hterm : n.is_terminal = true) :
    delete_node s conf = (s, Outcome.rejected "Cannot delete terminal nodes 0 and 1.") ∧
    start_edge_connection s k = (s, Outcome.rejected "Cannot connect from terminal nodes.") ∧
    (n.edges_out = [] →
      delete_outgoing_edges s = (s, Outcome.statusMsg "Node has no outgoing edges")) := by
  refine ⟨?_, ?_, ?_⟩
  · simp [delete_node, hsel, hfind, hterm]
  · simp [start_edge_connection, hsel, hfind, hterm]
  · intro he
    simp [delete_outgoing_edges, hsel, hfind, he]

/-- C4 witness: the protections observed on the initial state with
terminal 0 selected. -/
theorem C4_witness :
    delete_node selTermState true
        = (selTermState, Outcome.rejected "Cannot delete terminal nodes 0 and 1.") ∧
    start_edge_connection selTermState 1
        = (selTermState, Outcome.rejected "Cannot connect from terminal nodes.") ∧
    delete_outgoing_edges selTermState
        = (selTermState, Outcome.statusMsg "Node has no outgoing edges") :=
  ⟨(C4_terminal_protection selTermState 0 term0 true 1 rfl rfl rfl).1,
   (C4_terminal_protection selTermState 0 term0 true 1 rfl rfl rfl).2.1,
   (C4_terminal_protection selTermState 0 term0 true 1 rfl rfl rfl).2.2 rfl⟩

/-- C4 counterexample: clearEdges on a selected Terminal reports a
status message, not a rejection warning, so the claim that it fails
with an OperationRejected warning is false. -/
theorem C4_counterexample :
    delete_outgoing_edges selTermState
      = (selTermState, Outcome.statusMsg "Node has no outgoing edges") := rfl

/-!  C5: the Cancel command. -/

/-- C5 (amended): cancel_operation resets exactly the connecting
fields and has no model side effects; it leaves the box-selection
fields (selecting_box, the pending rectangle) and the selection
untouched, so a pending box selection is not discarded. -/
theorem C5_cancel_behavior (s : VState) :
    (cancel_operation s).1
        = { s with
            connecting_mode := false, connecting_edge_type := none,
            connecting_from_node := none } ∧
    (cancel_operation s).1.nodes = s.nodes ∧
    (cancel_operation s).1.selected_node = s.selected_node ∧
    (cancel_operation s).1.selected_nodes = s.selected_nodes ∧
    (cancel_operation s).1.selecting_box = s.selecting_box ∧
    (cancel_operation s).1.selection_rect = s.selection_rect :=
  ⟨rfl, rfl, rfl, rfl, rfl, rfl⟩

/-- C5 counterexample: issued during a box selection, Cancel leaves
selecting_box true and the pending rectangle in place, contradicting
the claim that BoxSelecting transitions to Idle and the rectangle is
discarded. -/
theorem C5_counterexample :
    (cancel_operation boxSelState).1.selecting_box = true ∧
    (cancel_operation boxSelState).1.selection_rect = true := ⟨rfl, rfl⟩

/-!  C6: deletion cleans references. -/

/-- C6: after a confirmed deleteNode of a non-terminal node, the node
is gone, no remaining node has an edge of either kind targeting it,
and if it was root no remaining node is root. -/
theorem mem_strip_aux {ns : List Node} {i : NodeId} {m : Node}
    (hm : m ∈ (ns.map (fun other =>
        { other with edges_out := other.edges_out.filter (fun p => p.1 != i) })).filter
        (fun m2 => m2.id != i)) :
    m.id ≠ i ∧ ∀ p ∈ m.edges_out, p.1 ≠ i := by
  have h1 := (List.mem_filter.mp hm).2
  have h2 := (List.mem_filter.mp hm).1
  obtain ⟨m3, _, rfl⟩ := List.mem_map.mp h2
  constructor
  · simpa using h1
  · intro p hp
    have h3 := (List.mem_filter.mp hp).2
    simpa using h3

theorem C6_delete_cleans (s : VState) (i : NodeId) (n : Node)
    (hsel : s.selected_node = some i)
    (hfind : findNode s.nodes i = some n)
    (hterm : n.is_terminal = false) :
    (∀ m ∈ (delete_node s true).1.nodes, m.id ≠ i) ∧
    (∀ m ∈ (delete_node s true).1.nodes, ∀ p ∈ m.edges_out, p.1 ≠ i) ∧
    (n.is_root = true → ∀ m ∈ (delete_node s true).1.nodes, m.is_root = false) := by
  have hsh : (delete_node s true).1.nodes =
      (if n.is_root then
        clearRoots ((s.nodes.map (fun other =>
          { other with edges_out := other.edges_out.filter (fun p => p.1 != i) })).filter
            (fun m2 => m2.id != i))
       else
        (s.nodes.map (fun other =>
          { other with edges_out := other.edges_out.filter (fun p => p.1 != i) })).filter
            (fun m2 => m2.id != i)) := by
    simp [delete_node, hsel, hfind, hterm]
  by_cases hr : n.is_root = true
  · rw [if_pos hr] at hsh
    refine ⟨?_, ?_, ?_⟩
    · intro m hm
      rw [hsh] at hm
      obtain ⟨m2, hm2, rfl⟩ := List.mem_map.mp hm
      exact (mem_strip_aux hm2).1
    · intro m hm p hp
      rw [hsh] at hm
      obtain ⟨m2, hm2, rfl⟩ := List.mem_map.mp hm
      exact (mem_strip_aux hm2).2 p hp
    · intro _ m hm
      rw [hsh] at hm
      obtain ⟨m2, _, rfl⟩ := List.mem_map.mp hm
      rfl
  · rw [if_neg hr] at hsh
    refine ⟨?_, ?_, fun hcon => absurd hcon hr⟩
    · intro m hm
      rw [hsh] at hm
      exact (mem_strip_aux hm).1
    · intro m hm p hp
      rw [hsh] at hm
      exact (mem_strip_aux hm).2 p hp

/-- C6 witness: deleting the rooted decision node p from the scenario
graph. -/
theorem C6_witness :
    (∀ m ∈ (delete_node delState true).1.nodes, m.id ≠ 2) ∧
    (∀ m ∈ (delete_node delState true).1.nodes, ∀ p ∈ m.edges_out, p.1 ≠ 2) ∧
    (nodeP.is_root = true → ∀ m ∈ (delete_node delState true).1.nodes, m.is_root = false) :=
  C6_delete_cleans delState 2 nodeP rfl rfl rfl

/-!  C8: the label counter protocol of addNode. -/

/-- C8 (amended): a cancelled label prompt creates no node and leaves
the whole state unchanged; a confirmed prompt appends exactly one
decision node and advances the variable-label counter by one whether
the typed label is the suggested default or any other text. -/
theorem C8_label_counter (s : VState) (t : String) :
    add_decision_node s none = (s, Outcome.statusMsg "Add node cancelled") ∧
    (add_decision_node s (some t)).1.next_var_index = s.next_var_index + 1 ∧
    (∃ node : Node,
      (add_decision_node s (some t)).1.nodes = s.nodes ++ [node] ∧
      node.label = (if (t.trim).isEmpty then get_next_variable_label s.next_var_index
                    else t.trim) ∧
      node.is_terminal = false ∧ node.id = s.next_node_id) := by
  refine ⟨rfl, rfl, ?_⟩
  exact ⟨_, rfl, rfl, rfl, rfl⟩

/-- C8 counterexample: on the initial state the suggested label is p,
yet confirming the prompt with the different label v1 still advances
the counter from 0 to 1, contradicting the claim that a non-default
label does not advance it. -/
theorem C8_counterexample :
    get_next_variable_label initialState.next_var_index = "p" ∧
    initialState.next_var_index = 0 ∧
    (add_decision_node initialState (some "v1")).1.next_var_index = 1 :=
  ⟨rfl, rfl, rfl⟩

/-!  C9: setRoot accepts any selected node, including terminals. -/

/-- C9: whenever a node with id i is the primary selection and present
in the graph (terminal or not), set_root_node succeeds and marks that
node as root. -/
theorem C9_set_root_any_node (s : VState) (i : NodeId) (n : Node)
    (hsel : s.selected_node = some i)
    (hfind : findNode s.nodes i = some n) :
    (∃ m, findNode (set_root_node s).1.nodes i = some m ∧ m.is_root = true) ∧
    (set_root_node s).2 = Outcome.statusMsg "Set root node" := by
  have hmem : memberId s.nodes i = true := memberId_of_findNode hfind
  have hmem1 : memberId (clearRoots s.nodes) i = true := by
    rw [memberId_iff] at hmem ⊢
    rwa [ids_clearRoots]
  have hni : n.id = i := findNode_id hfind
  refine ⟨?_, ?_⟩
  · simp only [set_root_node, hsel, hmem1, if_pos]
    rw [findNode_updNode (clearRoots s.nodes) i i
      (fun n => { n with is_root := true }) (fun _ => rfl)]
    simp only [clearRoots]
    rw [findNode_map (fun n => { n with is_root := false }) (fun _ => rfl) _ _, hfind]
    refine ⟨_, rfl, ?_⟩
    simp [hni]
  · simp [set_root_node, hsel, hmem1]

/-- C9 witness: terminal 1 selected on the initial state becomes
root. -/
theorem C9_witness :
    (∃ m, findNode (set_root_node selTerm1State).1.nodes 1 = some m ∧ m.is_root = true) ∧
    (set_root_node selTerm1State).2 = Outcome.statusMsg "Set root node" :=
  C9_set_root_any_node selTerm1State 1 term1 rfl rfl

/-!  C10: self-loop edges are permitted. -/

theorem get_edge_target_add_edge (n : Node) (t : NodeId) (j : Nat) :
    (n.add_edge t j).get_edge_target j = some t := by
  unfold Node.add_edge Node.get_edge_target
  simp only
  rw [List.find?_append]
  have h1 : (n.edges_out.filter (fun p => p.2 != j)).find? (fun p => p.2 == j) = none := by
    rw [List.find?_eq_none]
    intro x hx
    have hx2 := (List.mem_filter.mp hx).2
    simp only [bne_iff_ne, ne_eq] at hx2
    simp [hx2]
  rw [h1]
  simp

/-- C10: a click in connecting mode on the source node itself records
the self-loop edge (source, kind) to source; Node.add_edge places no
distinctness requirement on its target. -/
theorem C10_self_loop (s : VState) (f : NodeId) (k : Nat)
    (hfrom : s.connecting_from_node = some f)
    (hty : s.connecting_edge_type = some k)
    (hmem : memberId s.nodes f = true) :
    (∀ (n : Node) (t : NodeId) (j : Nat), (n.add_edge t j).get_edge_target j = some t) ∧
    edgeRel (on_canvas_click_connecting s (some f)).nodes f k = some f := by
  refine ⟨get_edge_target_add_edge, ?_⟩
  obtain ⟨m, hfindm, hmid⟩ := findNode_of_memberId hmem
  have hup : findNode (updNode s.nodes f (fun n => n.add_edge f ((some k).getD 0))) f
      = some (m.add_edge f k) := by
    rw [findNode_updNode s.nodes f f
      (fun n => n.add_edge f ((some k).getD 0)) (fun _ => rfl)]
    rw [hfindm]
    simp [hmid]
  simp only [on_canvas_click_connecting, hfrom, hty, hmem, if_pos, cancel_operation]
  unfold edgeRel
  rw [hup]
  exact get_edge_target_add_edge m f k

/-- C10 witness: in the scenario graph, connecting a 1-edge from node
p and clicking p itself yields the self-loop. -/
theorem C10_witness :
    (∀ (n : Node) (t : NodeId) (j : Nat), (n.add_edge t j).get_edge_target j = some t) ∧
    edgeRel (on_canvas_click_connecting connState (some 2)).nodes 2 1 = some 2 :=
  C10_self_loop connState 2 1 rfl rfl rfl

/-!  C7: root uniqueness is preserved by every operation. -/

theorem set_root_ids (s : VState) : ids (set_root_node s).1.nodes = ids s.nodes := by
  cases hsel : s.selected_node with
  | none => simp [set_root_node, hsel]
  | some i =>
    by_cases hm : memberId (clearRoots s.nodes) i = true
    · simp only [set_root_node, hsel, hm, if_true]
      rw [ids_updNode (clearRoots s.nodes) i (fun n => { n with is_root := true })
        (fun _ => rfl)]
      exact ids_clearRoots s.nodes
    · have hm' : memberId (clearRoots s.nodes) i = false := by simpa using hm
      simp only [set_root_node, hsel, hm', Bool.false_eq_true, if_false]
      exact ids_clearRoots s.nodes

theorem set_root_root_le (s : VState) (hnd : (ids s.nodes).Nodup)
    (h : atMostOneRoot s.nodes) : atMostOneRoot (set_root_node s).1.nodes := by
  cases hsel : s.selected_node with
  | none => simpa [set_root_node, hsel] using h
  | some i =>
    by_cases hm : memberId (clearRoots s.nodes) i = true
    · have hle := rootCount_set_root s.nodes i hnd
      simpa [atMostOneRoot, set_root_node, hsel, hm] using hle
    · have hm' : memberId (clearRoots s.nodes) i = false := by simpa using hm
      have h0 := rootCount_clearRoots s.nodes
      simp [atMostOneRoot, set_root_node, hsel, hm', h0]

theorem applySetRootSeq_invariant (s : VState) (sels : List (Option NodeId))
    (hnd : (ids s.nodes).Nodup) (h : atMostOneRoot s.nodes) :
    atMostOneRoot (applySetRootSeq s sels).nodes := by
  induction sels generalizing s with
  | nil => exact h
  | cons sel rest ih =>
    simp only [applySetRootSeq, List.foldl_cons] at ih ⊢
    apply ih
    · rw [set_root_ids { s with selected_node := sel }]
      exact hnd
    · exact set_root_root_le { s with selected_node := sel } hnd h

theorem delete_node_root_le (s : VState) (conf : Bool) (h : atMostOneRoot s.nodes) :
    atMostOneRoot (delete_node s conf).1.nodes := by
  cases hsel : s.selected_node with
  | none => simpa [delete_node, hsel] using h
  | some i =>
    cases hfind : findNode s.nodes i with
    | none => simpa [delete_node, hsel, hfind] using h
    | some node =>
      by_cases hterm : node.is_terminal = true
      · simpa [delete_node, hsel, hfind, hterm] using h
      · have hterm' : node.is_terminal = false := by simpa using hterm
        by_cases hconf : conf = true
        · subst hconf
          have hsh : (delete_node s true).1.nodes =
              (if node.is_root then
                clearRoots ((s.nodes.map (fun other =>
                  { other with edges_out := other.edges_out.filter (fun p => p.1 != i) })).filter
                    (fun m2 => m2.id != i))
               else
                (s.nodes.map (fun other =>
                  { other with edges_out := other.edges_out.filter (fun p => p.1 != i) })).filter
                    (fun m2 => m2.id != i)) := by
            simp [delete_node, hsel, hfind, hterm']
          unfold atMostOneRoot at h ⊢
          rw [hsh]
          by_cases hr : node.is_root = true
          · rw [if_pos hr, rootCount_clearRoots]
            exact Nat.zero_le 1
          · rw [if_neg hr]
            refine le_trans (rootCount_filter_le _ _) ?_
            rw [rootCount_map (fun other =>
              { other with edges_out := other.edges_out.filter (fun p => p.1 != i) })
              (fun _ => rfl)]
            exact h
        · have hconf' : conf = false := by simpa using hconf
          subst hconf'
          simpa [delete_node, hsel, hfind, hterm'] using h

theorem clear_all_root_le (s : VState) (conf : Bool) (h : atMostOneRoot s.nodes) :
    atMostOneRoot (clear_all s conf).1.nodes := by
  by_cases hconf : conf = true
  · subst hconf
    have hsh : (clear_all s true).1.nodes
        = (s.nodes.filter (fun n => n.is_terminal)).map Node.clear_edges := rfl
    unfold atMostOneRoot at h ⊢
    rw [hsh, rootCount_map Node.clear_edges (fun _ => rfl)]
    exact le_trans (rootCount_filter_le _ _) h
  · have hconf' : conf = false := by simpa using hconf
    subst hconf'
    exact h

theorem rootCount_mark_none (ns : List Node) :
    rootCount (ns.map (fun n =>
      { n with is_root := ((none : Option NodeId) == some n.id) })) = 0 := by
  induction ns with
  | nil => rfl
  | cons a t ih =>
    rw [List.map_cons, rootCount_cons, ih]
    simp

theorem rootCount_mark_some (ns : List Node) (r : NodeId) :
    rootCount (ns.map (fun n => { n with is_root := (some r == some n.id) })) =
      (ns.filter (fun n => n.id == r)).length := by
  induction ns with
  | nil => rfl
  | cons a t ih =>
    rw [List.map_cons, rootCount_cons, ih, List.filter_cons]
    by_cases hc : a.id = r
    · have h1 : (some r == some a.id) = true := by
        rw [hc]
        exact beq_self_eq_true _
      have h2 : (a.id == r) = true := by
        rw [hc]
        exact beq_self_eq_true _
      simp [h1, h2, Nat.add_comm]
    · have h1 : (some r == some a.id) = false := by
        rw [beq_eq_false_iff_ne]
        intro hcontra
        exact hc (Option.some.inj hcontra).symm
      have h2 : (a.id == r) = false := by
        rw [beq_eq_false_iff_ne]
        intro hcontra
        exact hc hcontra
      simp [h1, h2]

theorem checkFields_ok_inv {e : RawEntry} {u : Unit} (h : checkFields e = .ok u) :
    e.hid = true ∧ e.hlabel = true ∧ e.hx = true ∧ e.hy = true ∧ e.hterm = true := by
  unfold checkFields at h
  split_ifs at h with h1 h2 h3 h4 h5
  exact ⟨by simpa using h1, by simpa using h2, by simpa using h3,
         by simpa using h4, by simpa using h5⟩

theorem checkFields_ok_of {e : RawEntry} (h1 : e.hid = true) (h2 : e.hlabel = true)
    (h3 : e.hx = true) (h4 : e.hy = true) (h5 : e.hterm = true) :
    checkFields e = .ok () := by
  unfold checkFields
  simp [h1, h2, h3, h4, h5]

theorem ids_append_toNode (acc : List Node) (e : RawEntry) :
    ids (acc ++ [e.toNode]) = ids acc ++ [e.rid] := by
  simp [ids, RawEntry.toNode, Node.init]

theorem buildNodes_ok_eq : ∀ (es : List RawEntry) (acc ns : List Node),
    buildNodes es acc = .ok ns → ns = acc ++ es.map RawEntry.toNode := by
  intro es
  induction es with
  | nil =>
    intro acc ns h
    simp only [buildNodes] at h
    simp [← Except.ok.inj h]
  | cons e0 rest ih =>
    intro acc ns h
    simp only [buildNodes] at h
    cases hcf : checkFields e0 with
    | error msg =>
      simp only [hcf] at h
      exact Except.noConfusion h
    | ok u =>
      simp only [hcf] at h
      by_cases hm : memberId acc e0.rid = true
      · rw [if_pos hm] at h
        exact Except.noConfusion h
      · rw [if_neg hm] at h
        have hstep := ih (acc ++ [e0.toNode]) ns h
        rw [hstep, List.map_cons]
        simp [List.append_assoc]

theorem buildNodes_ok_fields : ∀ (es : List RawEntry) (acc ns : List Node),
    buildNodes es acc = .ok ns → ∀ e ∈ es, checkFields e = .ok () := by
  intro es
  induction es with
  | nil =>
    intro acc ns _ e he
    cases he
  | cons e0 rest ih =>
    intro acc ns h e he
    simp only [buildNodes] at h
    cases hcf : checkFields e0 with
    | error msg =>
      simp only [hcf] at h
      exact Except.noConfusion h
    | ok u =>
      simp only [hcf] at h
      by_cases hm : memberId acc e0.rid = true
      · rw [if_pos hm] at h
        exact Except.noConfusion h
      · rw [if_neg hm] at h
        rcases List.mem_cons.mp he with rfl | he'
        · cases u
          exact hcf
        · exact ih (acc ++ [e0.toNode]) ns h e he'

theorem buildNodes_ok_nodup : ∀ (es : List RawEntry) (acc ns : List Node),
    buildNodes es acc = .ok ns →
    (es.map RawEntry.rid).Nodup ∧ ∀ e ∈ es, e.rid ∉ ids acc := by
  intro es
  induction es with
  | nil =>
    intro acc ns _
    exact ⟨List.nodup_nil, fun e he => absurd he (List.not_mem_nil e)⟩
  | cons e0 rest ih =>
    intro acc ns h
    simp only [buildNodes] at h
    cases hcf : checkFields e0 with
    | error msg =>
      simp only [hcf] at h
      exact Except.noConfusion h
    | ok u =>
      simp only [hcf] at h
      by_cases hm : memberId acc e0.rid = true
      · rw [if_pos hm] at h
        exact Except.noConfusion h
      · rw [if_neg hm] at h
        obtain ⟨hnd, hnotin⟩ := ih (acc ++ [e0.toNode]) ns h
        constructor
        · rw [List.map_cons, List.nodup_cons]
          refine ⟨?_, hnd⟩
          intro hmem
          obtain ⟨r, hr, hrid⟩ := List.mem_map.mp hmem
          have hnr := hnotin r hr
          rw [ids_append_toNode] at hnr
          exact hnr (by simp [hrid])
        · intro e he
          rcases List.mem_cons.mp he with rfl | he'
          · intro hmem
            exact hm ((memberId_iff acc e.rid).mpr hmem)
          · have hnr := hnotin e he'
            rw [ids_append_toNode] at hnr
            intro hmem
            exact hnr (List.mem_append_left _ hmem)

theorem buildNodes_ok_of : ∀ (es : List RawEntry) (acc : List Node),
    (∀ e ∈ es, checkFields e = .ok ()) →
    (es.map RawEntry.rid).Nodup →
    (∀ e ∈ es, e.rid ∉ ids acc) →
    buildNodes es acc = .ok (acc ++ es.map RawEntry.toNode) := by
  intro es
  induction es with
  | nil =>
    intro acc _ _ _
    simp [buildNodes]
  | cons e0 rest ih =>
    intro acc hcf hnd hdisj
    have hcf0 := hcf e0 (List.mem_cons_self _ _)
    simp only [buildNodes, hcf0]
    have hm : ¬ (memberId acc e0.rid = true) := by
      intro hmem
      exact hdisj e0 (List.mem_cons_self _ _) ((memberId_iff _ _).mp hmem)
    rw [if_neg hm]
    have hnd1 : (e0.rid :: rest.map RawEntry.rid).Nodup := by simpa using hnd
    have hdisj' : ∀ e ∈ rest, e.rid ∉ ids (acc ++ [e0.toNode]) := by
      intro e he
      have hein : e.rid ∉ ids acc := hdisj e (List.mem_cons_of_mem _ he)
      have hne : e.rid ≠ e0.rid := by
        intro hc
        exact (List.nodup_cons.mp hnd1).1 (hc ▸ List.mem_map_of_mem RawEntry.rid he)
      rw [ids_append_toNode]
      intro hmem
      rcases List.mem_append.mp hmem with hl | hr
      · exact hein hl
      · exact hne (by simpa using hr)
    have hstep := ih (acc ++ [e0.toNode])
      (fun e he => hcf e (List.mem_cons_of_mem _ he))
      (List.nodup_cons.mp hnd1).2 hdisj'
    rw [hstep, List.map_cons]
    simp [List.append_assoc]

theorem applyLow_ok_ids {ns ns1 : List Node} {e : RawEntry}
    (h : applyLow ns e = .ok ns1) : ids ns1 = ids ns := by
  unfold applyLow at h
  cases hl : e.rlow with
  | none =>
    simp only [hl] at h
    rw [← Except.ok.inj h]
  | some l =>
    simp only [hl] at h
    by_cases hm : memberId ns l = true
    · rw [if_pos hm] at h
      rw [← Except.ok.inj h]
      exact ids_updNode ns e.rid (fun n => n.add_edge l 0) (fun _ => rfl)
    · rw [if_neg hm] at h
      exact Except.noConfusion h

theorem applyHigh_ok_ids {ns ns1 : List Node} {e : RawEntry}
    (h : applyHigh ns e = .ok ns1) : ids ns1 = ids ns := by
  unfold applyHigh at h
  cases hl : e.rhigh with
  | none =>
    simp only [hl] at h
    rw [← Except.ok.inj h]
  | some t =>
    simp only [hl] at h
    by_cases hm : memberId ns t = true
    · rw [if_pos hm] at h
      rw [← Except.ok.inj h]
      exact ids_updNode ns e.rid (fun n => n.add_edge t 1) (fun _ => rfl)
    · rw [if_neg hm] at h
      exact Except.noConfusion h

theorem applyEdges_ok_ids : ∀ (es : List RawEntry) (ns ns2 : List Node),
    applyEdges es ns = .ok ns2 → ids ns2 = ids ns := by
  intro es
  induction es with
  | nil =>
    intro ns ns2 h
    simp only [applyEdges] at h
    rw [← Except.ok.inj h]
  | cons e rest ih =>
    intro ns ns2 h
    simp only [applyEdges] at h
    cases hf : findNode ns e.rid with
    | none =>
      simp only [hf] at h
      exact Except.noConfusion h
    | some node =>
      simp only [hf] at h
      by_cases ht : node.is_terminal = true
      · rw [if_pos ht] at h
        exact ih ns ns2 h
      · rw [if_neg ht] at h
        cases hl : applyLow ns e with
        | error msg =>
          simp only [hl] at h
          exact Except.noConfusion h
        | ok ns1 =>
          simp only [hl] at h
          cases hh : applyHigh ns1 e with
          | error msg =>
            simp only [hh] at h
            exact Except.noConfusion h
          | ok nsb =>
            simp only [hh] at h
            exact (ih nsb ns2 h).trans ((applyHigh_ok_ids hh).trans (applyLow_ok_ids hl))

theorem ids_map_toNode (es : List RawEntry) :
    ids (es.map RawEntry.toNode) = es.map RawEntry.rid := by
  induction es with
  | nil => rfl
  | cons e t ih =>
    simp only [ids, List.map_cons] at ih ⊢
    rw [ih]
    rfl

theorem from_dict_ok_inv {d : RawDoc} {ns2 : List Node} {ro : Option NodeId}
    (h : from_dict d = .ok (ns2, ro)) :
    d.hnodes = true ∧
    (∃ ns1, buildNodes d.rnodes [] = .ok ns1 ∧
      (hasTerminalLabeled ns1 "0" && hasTerminalLabeled ns1 "1") = true ∧
      applyEdges d.rnodes ns1 = .ok ns2) ∧
    ro = d.rroot ∧ (∀ r, d.rroot = some r → memberId ns2 r = true) := by
  unfold from_dict at h
  by_cases hn : d.hnodes = true
  case neg =>
    rw [if_pos (by simpa using hn)] at h
    exact Except.noConfusion h
  case pos =>
    rw [if_neg (by simpa using hn)] at h
    cases hb : buildNodes d.rnodes [] with
    | error msg =>
      simp only [hb] at h
      exact Except.noConfusion h
    | ok ns1 =>
      simp only [hb] at h
      by_cases hterm : (hasTerminalLabeled ns1 "0" && hasTerminalLabeled ns1 "1") = true
      case neg =>
        rw [if_pos (by simpa using hterm)] at h
        exact Except.noConfusion h
      case pos =>
        rw [if_neg (by simpa using hterm)] at h
        cases ha : applyEdges d.rnodes ns1 with
        | error msg =>
          simp only [ha] at h
          exact Except.noConfusion h
        | ok nsb =>
          simp only [ha] at h
          cases hr : d.rroot with
          | none =>
            simp only [hr] at h
            have hp := Except.ok.inj h
            have h1 : nsb = ns2 := congrArg Prod.fst hp
            have h2 : (none : Option NodeId) = ro := congrArg Prod.snd hp
            subst h1
            refine ⟨hn, ⟨ns1, rfl, hterm, ha⟩, h2.symm, ?_⟩
            intro r hcontra
            cases hcontra
          | some r =>
            simp only [hr] at h
            by_cases hm : memberId nsb r = true
            · rw [if_pos hm] at h
              have hp := Except.ok.inj h
              have h1 : nsb = ns2 := congrArg Prod.fst hp
              have h2 : (some r : Option NodeId) = ro := congrArg Prod.snd hp
              subst h1
              refine ⟨hn, ⟨ns1, rfl, hterm, ha⟩, h2.symm, ?_⟩
              intro r2 hr2
              rw [← Option.some.inj hr2]
              exact hm
            · rw [if_neg hm] at h
              exact Except.noConfusion h

theorem from_dict_ok_ids {d : RawDoc} {ns2 : List Node} {ro : Option NodeId}
    (h : from_dict d = .ok (ns2, ro)) :
    ids ns2 = d.rnodes.map RawEntry.rid ∧ (ids ns2).Nodup := by
  obtain ⟨-, ⟨ns1, hb, -, ha⟩, -, -⟩ := from_dict_ok_inv h
  have he := buildNodes_ok_eq d.rnodes [] ns1 hb
  have hnd := (buildNodes_ok_nodup d.rnodes [] ns1 hb).1
  have hi := applyEdges_ok_ids d.rnodes ns1 ns2 ha
  rw [he] at hi
  simp only [List.nil_append] at hi
  rw [ids_map_toNode] at hi
  exact ⟨hi, hi ▸ hnd⟩

theorem count_id_le_one (ns : List Node) (r : NodeId) (hnd : (ids ns).Nodup) :
    (ns.filter (fun n => n.id == r)).length ≤ 1 := by
  induction ns with
  | nil => simp
  | cons a t ih =>
    have hnd1 : (a.id :: ids t).Nodup := by simpa only [ids, List.map_cons] using hnd
    have hna := (List.nodup_cons.mp hnd1).1
    have hnd' := (List.nodup_cons.mp hnd1).2
    rw [List.filter_cons]
    by_cases hc : (a.id == r) = true
    · rw [if_pos hc]
      have heq : a.id = r := by simpa using hc
      have h0 : (t.filter (fun n => n.id == r)).length = 0 := by
        rw [List.length_eq_zero, List.filter_eq_nil_iff]
        intro m hm hmr
        apply hna
        have hmr' : m.id = r := by simpa using hmr
        rw [heq, ← hmr']
        exact List.mem_map_of_mem Node.id hm
      simp [h0]
    · rw [if_neg hc]
      exact ih hnd'

theorem import_root_le (s : VState) (d : RawDoc) (h : atMostOneRoot s.nodes) :
    atMostOneRoot (import_json s d).1.nodes := by
  cases hfd : from_dict d with
  | error msg => simpa [import_json, hfd] using h
  | ok pair =>
    obtain ⟨ns, ro⟩ := pair
    obtain ⟨hids, hnd⟩ := from_dict_ok_ids hfd
    have hsh : (import_json s d).1.nodes
        = ns.map (fun n => { n with is_root := (ro == some n.id) }) := by
      simp [import_json, hfd, load_from_import]
    unfold atMostOneRoot
    rw [hsh]
    cases ro with
    | none =>
      rw [rootCount_mark_none]
      exact Nat.zero_le 1
    | some r =>
      rw [rootCount_mark_some]
      exact count_id_le_one ns r hnd

/-- C7: the at-most-one-root invariant is preserved by every sequence
of setRoot commands (each may pick a fresh selection first), by a
deleteNode (confirmed or not), by a clearAll (confirmed or not), and
by importing any document. -/
theorem C7_root_uniqueness (s : VState) (conf : Bool) (d : RawDoc)
    (sels : List (Option NodeId))
    (hnd : (ids s.nodes).Nodup) (h : atMostOneRoot s.nodes) :
    atMostOneRoot (applySetRootSeq s sels).nodes ∧
    atMostOneRoot (delete_node s conf).1.nodes ∧
    atMostOneRoot (clear_all s conf).1.nodes ∧
    atMostOneRoot (import_json s d).1.nodes :=
  ⟨applySetRootSeq_invariant s sels hnd h, delete_node_root_le s conf h,
   clear_all_root_le s conf h, import_root_le s d h⟩

/-- C7 witness: both hypotheses hold on the initial state and the
invariant is preserved by a sequence of two setRoot commands, a
confirmed deleteNode, a confirmed clearAll, and an import of the
malformed document. -/
theorem C7_witness :
    atMostOneRoot (applySetRootSeq initialState [some 1, some 0]).nodes ∧
    atMostOneRoot (delete_node initialState true).1.nodes ∧
    atMostOneRoot (clear_all initialState true).1.nodes ∧
    atMostOneRoot (import_json initialState badDoc).1.nodes :=
  C7_root_uniqueness initialState true badDoc [some 1, some 0]
    (by show (ids initialState.nodes).Nodup; decide)
    (by show rootCount initialState.nodes ≤ 1; decide)

/-!  C2: every validation rule violation makes from_dict fail and a
failed import leaves the live state untouched. -/

theorem except_error_of_not_ok {α : Type} (x : Except String α)
    (h : ∀ v, x ≠ .ok v) : ∃ msg, x = .error msg := by
  cases x with
  | error msg => exact ⟨msg, rfl⟩
  | ok v => exact absurd rfl (h v)

theorem applyLow_ok_term {cur ns1 : List Node} {e : RawEntry}
    (h : applyLow cur e = .ok ns1) (j : NodeId) (m : Node)
    (hm : findNode ns1 j = some m) :
    ∃ m0, findNode cur j = some m0 ∧ m.is_terminal = m0.is_terminal := by
  unfold applyLow at h
  cases hl : e.rlow with
  | none =>
    simp only [hl] at h
    rw [← Except.ok.inj h] at hm
    exact ⟨m, hm, rfl⟩
  | some l =>
    simp only [hl] at h
    by_cases hmem : memberId cur l = true
    · rw [if_pos hmem] at h
      rw [← Except.ok.inj h] at hm
      rw [findNode_updNode cur e.rid j (fun n => n.add_edge l 0) (fun _ => rfl)] at hm
      cases hf : findNode cur j with
      | none =>
        rw [hf] at hm
        cases hm
      | some m0 =>
        rw [hf] at hm
        have hgm : (if m0.id == e.rid then m0.add_edge l 0 else m0) = m := by
          simpa using hm
        refine ⟨m0, rfl, ?_⟩
        rw [← hgm]
        by_cases hcond : (m0.id == e.rid) = true <;> simp [hcond, Node.add_edge]
    · rw [if_neg hmem] at h
      exact Except.noConfusion h

theorem applyHigh_ok_term {cur ns1 : List Node} {e : RawEntry}
    (h : applyHigh cur e = .ok ns1) (j : NodeId) (m : Node)
    (hm : findNode ns1 j = some m) :
    ∃ m0, findNode cur j = some m0 ∧ m.is_terminal = m0.is_terminal := by
  unfold applyHigh at h
  cases hl : e.rhigh with
  | none =>
    simp only [hl] at h
    rw [← Except.ok.inj h] at hm
    exact ⟨m, hm, rfl⟩
  | some t2 =>
    simp only [hl] at h
    by_cases hmem : memberId cur t2 = true
    · rw [if_pos hmem] at h
      rw [← Except.ok.inj h] at hm
      rw [findNode_updNode cur e.rid j (fun n => n.add_edge t2 1) (fun _ => rfl)] at hm
      cases hf : findNode cur j with
      | none =>
        rw [hf] at hm
        cases hm
      | some m0 =>
        rw [hf] at hm
        have hgm : (if m0.id == e.rid then m0.add_edge t2 1 else m0) = m := by
          simpa using hm
        refine ⟨m0, rfl, ?_⟩
        rw [← hgm]
        by_cases hcond : (m0.id == e.rid) = true <;> simp [hcond, Node.add_edge]
    · rw [if_neg hmem] at h
      exact Except.noConfusion h

theorem applyEdges_not_ok : ∀ (es : List RawEntry) (cur : List Node),
    (∃ e ∈ es, e.rterm = false ∧
      ((∃ l, e.rlow = some l ∧ l ∉ ids cur) ∨ (∃ t2, e.rhigh = some t2 ∧ t2 ∉ ids cur))) →
    (∀ e ∈ es, ∀ m, findNode cur e.rid = some m → m.is_terminal = e.rterm) →
    ∀ ns2, applyEdges es cur ≠ .ok ns2 := by
  intro es
  induction es with
  | nil =>
    intro cur hbad _ ns2 _
    obtain ⟨e, he, -⟩ := hbad
    cases he
  | cons e0 rest ih =>
    intro cur hbad hinv ns2 hok
    simp only [applyEdges] at hok
    cases hf : findNode cur e0.rid with
    | none =>
      simp only [hf] at hok
      exact Except.noConfusion hok
    | some node =>
      simp only [hf] at hok
      by_cases ht : node.is_terminal = true
      · rw [if_pos ht] at hok
        obtain ⟨e, he, hterm0, hbad'⟩ := hbad
        rcases List.mem_cons.mp he with rfl | he'
        · have hit := hinv e (List.mem_cons_self _ _) node hf
          rw [ht, hterm0] at hit
          exact Bool.noConfusion hit
        · exact ih cur ⟨e, he', hterm0, hbad'⟩
            (fun e2 he2 => hinv e2 (List.mem_cons_of_mem _ he2)) ns2 hok
      · rw [if_neg ht] at hok
        cases hl : applyLow cur e0 with
        | error msg =>
          simp only [hl] at hok
          exact Except.noConfusion hok
        | ok ns1 =>
          simp only [hl] at hok
          cases hh : applyHigh ns1 e0 with
          | error msg =>
            simp only [hh] at hok
            exact Except.noConfusion hok
          | ok nsb =>
            simp only [hh] at hok
            have hidsl : ids ns1 = ids cur := applyLow_ok_ids hl
            have hidsh : ids nsb = ids ns1 := applyHigh_ok_ids hh
            obtain ⟨e, he, hterm0, hbad'⟩ := hbad
            rcases List.mem_cons.mp he with rfl | he'
            · rcases hbad' with ⟨l, hlow, hnotin⟩ | ⟨t2, hhigh, hnotin⟩
              · unfold applyLow at hl
                simp only [hlow] at hl
                by_cases hmem : memberId cur l = true
                · exact hnotin ((memberId_iff cur l).mp hmem)
                · rw [if_neg hmem] at hl
                  exact Except.noConfusion hl
              · unfold applyHigh at hh
                simp only [hhigh] at hh
                by_cases hmem : memberId ns1 t2 = true
                · refine hnotin ?_
                  rw [← hidsl]
                  exact (memberId_iff ns1 t2).mp hmem
                · rw [if_neg hmem] at hh
                  exact Except.noConfusion hh
            · refine ih nsb ⟨e, he', hterm0, ?_⟩ ?_ ns2 hok
              · rcases hbad' with ⟨l, hlow, hnotin⟩ | ⟨t2, hhigh, hnotin⟩
                · refine Or.inl ⟨l, hlow, ?_⟩
                  rw [hidsh, hidsl]
                  exact hnotin
                · refine Or.inr ⟨t2, hhigh, ?_⟩
                  rw [hidsh, hidsl]
                  exact hnotin
              · intro e2 he2 m hm
                obtain ⟨m1, hm1, hterm1⟩ := applyHigh_ok_term hh e2.rid m hm
                obtain ⟨m0, hm0, hterm2⟩ := applyLow_ok_term hl e2.rid m1 hm1
                rw [hterm1, hterm2]
                exact hinv e2 (List.mem_cons_of_mem _ he2) m0 hm0

theorem findNode_toNode_of_nodup {es : List RawEntry} (hnd : (es.map RawEntry.rid).Nodup)
    {e : RawEntry} (he : e ∈ es) :
    findNode (es.map RawEntry.toNode) e.rid = some e.toNode := by
  have hnd2 : (ids (es.map RawEntry.toNode)).Nodup := by
    rw [ids_map_toNode]
    exact hnd
  have hmem : e.toNode ∈ es.map RawEntry.toNode := List.mem_map_of_mem _ he
  exact findNode_self_of_nodup hnd2 hmem

/-- C2: every violation of a validation rule (missing nodes sequence, a
node entry missing a required field, duplicate ids, no terminal labeled
0 or none labeled 1, a dangling low/high reference on a non-terminal
entry, a dangling root reference) makes from_dict fail with a
validation error, and the failed import leaves the entire live state,
including the node dictionary, root flags, and both allocator counters,
unchanged. -/
theorem C2_import_validation (s : VState) (d : RawDoc)
    (h : d.hnodes = false
      ∨ (∃ e ∈ d.rnodes,
          ¬ (e.hid = true ∧ e.hlabel = true ∧ e.hx = true ∧ e.hy = true ∧ e.hterm = true))
      ∨ ¬ (docIds d).Nodup
      ∨ (¬ ∃ e ∈ d.rnodes, e.rterm = true ∧ e.rlabel = "0")
      ∨ (¬ ∃ e ∈ d.rnodes, e.rterm = true ∧ e.rlabel = "1")
      ∨ (∃ e ∈ d.rnodes, e.rterm = false ∧
          ((∃ l, e.rlow = some l ∧ l ∉ docIds d) ∨ (∃ t2, e.rhigh = some t2 ∧ t2 ∉ docIds d)))
      ∨ (∃ r, d.rroot = some r ∧ r ∉ docIds d)) :
    ∃ msg, from_dict d = .error msg ∧
      import_json s d = (s, Outcome.rejected ("Could not import file: " ++ msg)) := by
  have hnotok : ∀ v, from_dict d ≠ .ok v := by
    rintro ⟨ns2, ro⟩ hok
    obtain ⟨hn, ⟨ns1, hb, hterm, ha⟩, hro, hrootmem⟩ := from_dict_ok_inv hok
    have heq := buildNodes_ok_eq d.rnodes [] ns1 hb
    simp only [List.nil_append] at heq
    have hflds := buildNodes_ok_fields d.rnodes [] ns1 hb
    have hnds := (buildNodes_ok_nodup d.rnodes [] ns1 hb).1
    rcases h with h | h | h | h | h | h | h
    · rw [hn] at h
      exact Bool.noConfusion h
    · obtain ⟨e, he, hmiss⟩ := h
      exact hmiss (checkFields_ok_inv (hflds e he))
    · exact h hnds
    · apply h
      have h0 : hasTerminalLabeled ns1 "0" = true := (Bool.and_eq_true_iff.mp hterm).1
      rw [heq] at h0
      unfold hasTerminalLabeled at h0
      obtain ⟨x, hx, hpx⟩ := List.any_eq_true.mp h0
      obtain ⟨e, he, rfl⟩ := List.mem_map.mp hx
      refine ⟨e, he, ?_, ?_⟩
      · have hb1 := (Bool.and_eq_true_iff.mp hpx).1
        simpa [RawEntry.toNode, Node.init] using hb1
      · have hb2 := (Bool.and_eq_true_iff.mp hpx).2
        simpa [RawEntry.toNode, Node.init] using hb2
    · apply h
      have h1 : hasTerminalLabeled ns1 "1" = true := (Bool.and_eq_true_iff.mp hterm).2
      rw [heq] at h1
      unfold hasTerminalLabeled at h1
      obtain ⟨x, hx, hpx⟩ := List.any_eq_true.mp h1
      obtain ⟨e, he, rfl⟩ := List.mem_map.mp hx
      refine ⟨e, he, ?_, ?_⟩
      · have hb1 := (Bool.and_eq_true_iff.mp hpx).1
        simpa [RawEntry.toNode, Node.init] using hb1
      · have hb2 := (Bool.and_eq_true_iff.mp hpx).2
        simpa [RawEntry.toNode, Node.init] using hb2
    · rw [heq] at ha
      refine applyEdges_not_ok d.rnodes (d.rnodes.map RawEntry.toNode) ?_ ?_ ns2 ha
      · obtain ⟨e, he, hterm0, hbad⟩ := h
        refine ⟨e, he, hterm0, ?_⟩
        rcases hbad with ⟨l, hlow, hni⟩ | ⟨t2, hhigh, hni⟩
        · refine Or.inl ⟨l, hlow, ?_⟩
          rw [ids_map_toNode]
          exact hni
        · refine Or.inr ⟨t2, hhigh, ?_⟩
          rw [ids_map_toNode]
          exact hni
      · intro e he m hm
        rw [findNode_toNode_of_nodup hnds he] at hm
        rw [← Option.some.inj hm]
        simp [RawEntry.toNode, Node.init]
    · obtain ⟨r, hr, hnotin⟩ := h
      have hmem := hrootmem r hr
      apply hnotin
      have hids2 := (from_dict_ok_ids hok).1
      rw [memberId_iff, hids2] at hmem
      exact hmem
  obtain ⟨msg, hmsg⟩ := except_error_of_not_ok _ hnotok
  refine ⟨msg, hmsg, ?_⟩
  simp [import_json, hmsg]

/-- C2 witness: the document holding only a 0-labeled terminal violates
the terminal-1 rule, from_dict fails, and importing it leaves the
initial state untouched. -/
theorem C2_witness :
    ∃ msg, from_dict badDoc = .error msg ∧
      import_json initialState badDoc
        = (initialState, Outcome.rejected ("Could not import file: " ++ msg)) :=
  C2_import_validation initialState badDoc
    (Or.inr (Or.inr (Or.inr (Or.inr (Or.inl (by decide))))))

/-!  C1: round trip through the serializer.  Helper lemmas about the
rebuilt nodes. -/

theorem entryOf_rid (n : Node) : (entryOf n).rid = n.id := rfl

theorem entryOf_rterm (n : Node) : (entryOf n).rterm = n.is_terminal := rfl

theorem toNode_entryOf (n : Node) : (entryOf n).toNode = resetNode n := rfl

theorem checkFields_entryOf (n : Node) : checkFields (entryOf n) = .ok () := rfl

theorem resetNode_id (n : Node) : (resetNode n).id = n.id := rfl

theorem resetNode_is_terminal (n : Node) : (resetNode n).is_terminal = n.is_terminal := rfl

theorem reconNode_of_terminal {n : Node} (ht : n.is_terminal = true) :
    reconNode n = resetNode n := by
  unfold reconNode
  rw [ht]
  simp

theorem reconNode_of_not_terminal {n : Node} (ht : n.is_terminal = false) :
    reconNode n = { resetNode n with
      edges_out := canonEdges (n.get_edge_target 0) (n.get_edge_target 1) } := by
  unfold reconNode
  rw [ht]
  simp

theorem reconNode_id (n : Node) : (reconNode n).id = n.id := by
  by_cases ht : n.is_terminal = true
  · rw [reconNode_of_terminal ht]
    rfl
  · rw [reconNode_of_not_terminal (by simpa using ht)]
    rfl

theorem reconNode_label (n : Node) : (reconNode n).label = n.label := by
  by_cases ht : n.is_terminal = true
  · rw [reconNode_of_terminal ht]
    rfl
  · rw [reconNode_of_not_terminal (by simpa using ht)]
    rfl

theorem reconNode_x (n : Node) : (reconNode n).x = n.x := by
  by_cases ht : n.is_terminal = true
  · rw [reconNode_of_terminal ht]
    rfl
  · rw [reconNode_of_not_terminal (by simpa using ht)]
    rfl

theorem reconNode_y (n : Node) : (reconNode n).y = n.y := by
  by_cases ht : n.is_terminal = true
  · rw [reconNode_of_terminal ht]
    rfl
  · rw [reconNode_of_not_terminal (by simpa using ht)]
    rfl

theorem reconNode_is_terminal (n : Node) : (reconNode n).is_terminal = n.is_terminal := by
  by_cases ht : n.is_terminal = true
  · rw [reconNode_of_terminal ht]
    rfl
  · rw [reconNode_of_not_terminal (by simpa using ht)]
    rfl

theorem map_congr_mem {α β : Type} {l : List α} {f g : α → β}
    (h : ∀ a ∈ l, f a = g a) : l.map f = l.map g := by
  induction l with
  | nil => rfl
  | cons a t ih =>
    simp only [List.map_cons]
    rw [h a (List.mem_cons_self _ _), ih (fun b hb => h b (List.mem_cons_of_mem _ hb))]

theorem map_rid_entryOf (ns : List Node) :
    (ns.map entryOf).map RawEntry.rid = ns.map Node.id := by
  induction ns with
  | nil => rfl
  | cons a t ih =>
    simp only [List.map_cons]
    rw [ih]
    rfl

theorem map_toNode_entryOf (ns : List Node) :
    (ns.map entryOf).map RawEntry.toNode = ns.map resetNode := by
  induction ns with
  | nil => rfl
  | cons a t ih =>
    simp only [List.map_cons]
    rw [ih]
    rfl

theorem ids_map_resetNode (ns : List Node) : ids (ns.map resetNode) = ids ns :=
  ids_map resetNode (fun _ => rfl) ns

theorem buildNodes_entryOf (ns : List Node) (hnd : (ids ns).Nodup) :
    buildNodes (ns.map entryOf) [] = .ok (ns.map resetNode) := by
  have h := buildNodes_ok_of (ns.map entryOf) []
    (fun e he => by
      obtain ⟨n, _, rfl⟩ := List.mem_map.mp he
      exact checkFields_entryOf n)
    (by
      rw [map_rid_entryOf]
      exact hnd)
    (fun e _ => by simp [ids])
  rw [h, List.nil_append, map_toNode_entryOf]

theorem hasTerminalLabeled_reset (ns : List Node) (s : String)
    (h : ∃ n ∈ ns, n.is_terminal = true ∧ n.label = s) :
    hasTerminalLabeled (ns.map resetNode) s = true := by
  obtain ⟨n, hn, ht, hl⟩ := h
  unfold hasTerminalLabeled
  rw [List.any_eq_true]
  refine ⟨resetNode n, List.mem_map_of_mem _ hn, ?_⟩
  simp [resetNode, Node.init, ht, hl]

theorem get_edge_target_mem {n : Node} {k : Nat} {t : NodeId}
    (h : n.get_edge_target k = some t) : ∃ p ∈ n.edges_out, p.1 = t := by
  unfold Node.get_edge_target at h
  cases hf : n.edges_out.find? (fun p => p.2 == k) with
  | none =>
    rw [hf] at h
    cases h
  | some p =>
    rw [hf] at h
    exact ⟨p, List.mem_of_find?_eq_some hf, Option.some.inj h⟩

theorem find?_rid_eq_none {rest : List Node} {j : NodeId} (h : j ∉ ids rest) :
    rest.find? (fun n2 => n2.id == j) = none := by
  rw [List.find?_eq_none]
  intro x hx hc
  have hxj : x.id = j := by simpa using hc
  apply h
  rw [← hxj]
  exact List.mem_map_of_mem Node.id hx

theorem updNode_eq_map_matched (cur : List Node) (i : NodeId) (v w : Node)
    (hndc : (ids cur).Nodup) (hfv : findNode cur i = some v)
    (f : Node → Node) (hfw : f v = w) :
    updNode cur i f = cur.map (fun m => if m.id == i then w else m) := by
  unfold updNode
  apply map_congr_mem
  intro m hm
  by_cases hc : (m.id == i) = true
  · have hmv : m = v := eq_of_findNode_of_nodup hndc hfv hm (by simpa using hc)
    rw [if_pos hc, if_pos hc, hmv, hfw]
  · rw [if_neg hc, if_neg hc]

theorem self_eq_map_matched (cur : List Node) (i : NodeId) (v : Node)
    (hndc : (ids cur).Nodup) (hfv : findNode cur i = some v) :
    cur = cur.map (fun m => if m.id == i then v else m) := by
  conv_lhs => rw [← List.map_id cur]
  apply map_congr_mem
  intro m hm
  by_cases hc : (m.id == i) = true
  · have hmv : m = v := eq_of_findNode_of_nodup hndc hfv hm (by simpa using hc)
    rw [if_pos hc]
    exact hmv
  · rw [if_neg hc]
    rfl

theorem updNode2_eq_map_matched (cur : List Node) (i : NodeId) (v w : Node)
    (hndc : (ids cur).Nodup) (hfv : findNode cur i = some v)
    (f g : Node → Node) (hf : ∀ m, (f m).id = m.id) (hfw : g (f v) = w) :
    updNode (updNode cur i f) i g = cur.map (fun m => if m.id == i then w else m) := by
  unfold updNode
  rw [List.map_map]
  apply map_congr_mem
  intro m hm
  by_cases hc : (m.id == i) = true
  · have hmv : m = v := eq_of_findNode_of_nodup hndc hfv hm (by simpa using hc)
    subst hmv
    simp [Function.comp, hf, hc, hfw]
  · simp [Function.comp, hc]

theorem applyLow_entryOf (n : Node) (cur : List Node)
    (ht : n.is_terminal = false)
    (htgt : ∀ p ∈ n.edges_out, p.1 ∈ ids cur) :
    applyLow cur (entryOf n) =
      .ok (match n.get_edge_target 0 with
           | none => cur
           | some l => updNode cur n.id (fun m => m.add_edge l 0)) := by
  unfold applyLow
  have hlow : (entryOf n).rlow = n.get_edge_target 0 := by
    simp [entryOf, ht]
  rw [hlow]
  cases hg : n.get_edge_target 0 with
  | none => rfl
  | some l =>
    have hl : l ∈ ids cur := by
      obtain ⟨p, hp, hp1⟩ := get_edge_target_mem hg
      rw [← hp1]
      exact htgt p hp
    have hmem : memberId cur l = true := (memberId_iff _ _).mpr hl
    simp [hmem, entryOf_rid]

theorem applyHigh_entryOf (n : Node) (cur : List Node)
    (ht : n.is_terminal = false)
    (htgt : ∀ p ∈ n.edges_out, p.1 ∈ ids cur) :
    applyHigh cur (entryOf n) =
      .ok (match n.get_edge_target 1 with
           | none => cur
           | some t2 => updNode cur n.id (fun m => m.add_edge t2 1)) := by
  unfold applyHigh
  have hhigh : (entryOf n).rhigh = n.get_edge_target 1 := by
    simp [entryOf, ht]
  rw [hhigh]
  cases hg : n.get_edge_target 1 with
  | none => rfl
  | some t2 =>
    have hl : t2 ∈ ids cur := by
      obtain ⟨p, hp, hp1⟩ := get_edge_target_mem hg
      rw [← hp1]
      exact htgt p hp
    have hmem : memberId cur t2 = true := (memberId_iff _ _).mpr hl
    simp [hmem, entryOf_rid]

theorem roundTripNode_nil (m : Node) : roundTripNode [] m = m := rfl

theorem roundTripNode_cons_pos {n m : Node} (rest : List Node) (h : (n.id == m.id) = true) :
    roundTripNode (n :: rest) m = reconNode n := by
  unfold roundTripNode
  rw [List.find?_cons_of_pos (p := fun n2 => n2.id == m.id) rest h]

theorem roundTripNode_cons_neg {n m : Node} (rest : List Node)
    (h : ¬ (n.id == m.id) = true) :
    roundTripNode (n :: rest) m = roundTripNode rest m := by
  unfold roundTripNode
  rw [List.find?_cons_of_neg (p := fun n2 => n2.id == m.id) rest h]

theorem applyEdges_entryOf : ∀ (src cur : List Node),
    (ids cur).Nodup →
    (ids src).Nodup →
    (∀ n ∈ src, findNode cur n.id = some (resetNode n)) →
    (∀ n ∈ src, ∀ p ∈ n.edges_out, p.1 ∈ ids cur) →
    applyEdges (src.map entryOf) cur = .ok (cur.map (roundTripNode src)) := by
  intro src
  induction src with
  | nil =>
    intro cur _ _ _ _
    rw [List.map_nil]
    have h1 : cur.map (roundTripNode []) = cur := by
      have h2 : cur.map (roundTripNode []) = cur.map id :=
        map_congr_mem (fun m _ => roundTripNode_nil m)
      rw [h2, List.map_id]
    rw [h1]
    rfl
  | cons n rest ih =>
    intro cur hndc hnds hfind htgt
    have hnds1 : (n.id :: ids rest).Nodup := by simpa only [ids, List.map_cons] using hnds
    have hnarest : n.id ∉ ids rest := (List.nodup_cons.mp hnds1).1
    have hndrest : (ids rest).Nodup := (List.nodup_cons.mp hnds1).2
    have hfn : findNode cur n.id = some (resetNode n) := hfind n (List.mem_cons_self _ _)
    have htgtn : ∀ p ∈ n.edges_out, p.1 ∈ ids cur := htgt n (List.mem_cons_self _ _)
    rw [List.map_cons]
    simp only [applyEdges, entryOf_rid, hfn, resetNode_is_terminal]
    have hcont : ∀ (w : Node), w = reconNode n →
        applyEdges (rest.map entryOf)
            (cur.map (fun m => if m.id == n.id then w else m))
          = .ok (cur.map (roundTripNode (n :: rest))) := by
      intro w hw
      have hwid : w.id = n.id := by rw [hw, reconNode_id]
      have hpres : ∀ m : Node, ((fun m2 => if m2.id == n.id then w else m2) m).id = m.id := by
        intro m
        show (if (m.id == n.id) = true then w else m).id = m.id
        by_cases hcm : (m.id == n.id) = true
        · have hmn : m.id = n.id := by simpa using hcm
          rw [if_pos hcm, hwid, hmn]
        · rw [if_neg hcm]
      have hnd2 : (ids (cur.map (fun m => if m.id == n.id then w else m))).Nodup := by
        rw [ids_map _ hpres]
        exact hndc
      have hfind2 : ∀ r ∈ rest,
          findNode (cur.map (fun m => if m.id == n.id then w else m)) r.id
            = some (resetNode r) := by
        intro r hr
        rw [findNode_map _ hpres, hfind r (List.mem_cons_of_mem _ hr)]
        have hrne : ¬ ((resetNode r).id == n.id) = true := by
          rw [resetNode_id]
          intro hcontra
          apply hnarest
          have hrn : r.id = n.id := by simpa using hcontra
          rw [← hrn]
          exact List.mem_map_of_mem Node.id hr
        show some (if ((resetNode r).id == n.id) = true then w else resetNode r)
            = some (resetNode r)
        rw [if_neg hrne]
      have htgt2 : ∀ r ∈ rest, ∀ p ∈ r.edges_out,
          p.1 ∈ ids (cur.map (fun m => if m.id == n.id then w else m)) := by
        intro r hr p hp
        rw [ids_map _ hpres]
        exact htgt r (List.mem_cons_of_mem _ hr) p hp
      rw [ih _ hnd2 hndrest hfind2 htgt2]
      congr 1
      rw [List.map_map]
      apply map_congr_mem
      intro m hm
      show roundTripNode rest (if (m.id == n.id) = true then w else m)
          = roundTripNode (n :: rest) m
      by_cases hc : (n.id == m.id) = true
      · have hmid : m.id = n.id := by
          have hnm : n.id = m.id := by simpa using hc
          exact hnm.symm
        have hcm : (m.id == n.id) = true := by simpa using hmid
        rw [if_pos hcm, roundTripNode_cons_pos rest hc]
        have hnone : rest.find? (fun n2 => n2.id == w.id) = none := by
          apply find?_rid_eq_none
          rw [hwid]
          exact hnarest
        unfold roundTripNode
        simp only [hnone]
        exact hw
      · have hcm : ¬ (m.id == n.id) = true := by
          intro hcontra
          apply hc
          have hmn : m.id = n.id := by simpa using hcontra
          simpa using hmn.symm
        rw [if_neg hcm, roundTripNode_cons_neg rest hc]
    by_cases ht : n.is_terminal = true
    · rw [if_pos ht]
      have hself : cur = cur.map (fun m => if m.id == n.id then resetNode n else m) :=
        self_eq_map_matched cur n.id (resetNode n) hndc hfn
      have hwr : resetNode n = reconNode n := (reconNode_of_terminal ht).symm
      have hres := hcont (resetNode n) hwr
      rw [← hself] at hres
      exact hres
    · have ht' : n.is_terminal = false := by simpa using ht
      rw [if_neg ht]
      have hlow := applyLow_entryOf n cur ht' htgtn
      rcases hg0 : n.get_edge_target 0 with _ | l
      · rcases hg1 : n.get_edge_target 1 with _ | t2
        · -- no low, no high
          simp only [hg0] at hlow
          have hhigh := applyHigh_entryOf n cur ht' htgtn
          simp only [hg1] at hhigh
          simp only [hlow, hhigh]
          have hwr : resetNode n = reconNode n := by
            rw [reconNode_of_not_terminal ht', hg0, hg1]
            rfl
          have hself : cur = cur.map (fun m => if m.id == n.id then resetNode n else m) :=
            self_eq_map_matched cur n.id (resetNode n) hndc hfn
          have hres := hcont (resetNode n) hwr
          rw [← hself] at hres
          exact hres
        · -- no low, high to t2
          simp only [hg0] at hlow
          have hhigh := applyHigh_entryOf n cur ht' htgtn
          simp only [hg1] at hhigh
          simp only [hlow, hhigh]
          have hfw : (resetNode n).add_edge t2 1 = reconNode n := by
            rw [reconNode_of_not_terminal ht', hg0, hg1]
            rfl
          have hB := updNode_eq_map_matched cur n.id (resetNode n) (reconNode n)
            hndc hfn (fun m => m.add_edge t2 1) hfw
          have hres := hcont (reconNode n) rfl
          rw [← hB] at hres
          exact hres
      · rcases hg1 : n.get_edge_target 1 with _ | t2
        · -- low to l, no high
          simp only [hg0] at hlow
          have hids1 : ids (updNode cur n.id (fun m => m.add_edge l 0)) = ids cur :=
            ids_updNode cur n.id (fun m => m.add_edge l 0) (fun _ => rfl)
          have hhigh := applyHigh_entryOf n (updNode cur n.id (fun m => m.add_edge l 0)) ht'
            (by
              intro p hp
              rw [hids1]
              exact htgtn p hp)
          simp only [hg1] at hhigh
          simp only [hlow, hhigh]
          have hfw : (resetNode n).add_edge l 0 = reconNode n := by
            rw [reconNode_of_not_terminal ht', hg0, hg1]
            rfl
          have hB := updNode_eq_map_matched cur n.id (resetNode n) (reconNode n)
            hndc hfn (fun m => m.add_edge l 0) hfw
          have hres := hcont (reconNode n) rfl
          rw [← hB] at hres
          exact hres
        · -- low to l, high to t2
          simp only [hg0] at hlow
          have hids1 : ids (updNode cur n.id (fun m => m.add_edge l 0)) = ids cur :=
            ids_updNode cur n.id (fun m => m.add_edge l 0) (fun _ => rfl)
          have hhigh := applyHigh_entryOf n (updNode cur n.id (fun m => m.add_edge l 0)) ht'
            (by
              intro p hp
              rw [hids1]
              exact htgtn p hp)
          simp only [hg1] at hhigh
          simp only [hlow, hhigh]
          have hfw : ((resetNode n).add_edge l 0).add_edge t2 1 = reconNode n := by
            rw [reconNode_of_not_terminal ht', hg0, hg1]
            simp [Node.add_edge, resetNode, Node.init, canonEdges]
          have hB := updNode2_eq_map_matched cur n.id (resetNode n) (reconNode n)
            hndc hfn (fun m => m.add_edge l 0) (fun m => m.add_edge t2 1)
            (fun _ => rfl) hfw
          have hres := hcont (reconNode n) rfl
          rw [← hB] at hres
          exact hres

theorem recon_get_edge_target (n : Node)
    (hterm_edges : n.is_terminal = true → n.edges_out = [])
    (hkinds : ∀ p ∈ n.edges_out, p.2 = 0 ∨ p.2 = 1) :
    ∀ k, (reconNode n).get_edge_target k = n.get_edge_target k := by
  intro k
  by_cases ht : n.is_terminal = true
  · rw [reconNode_of_terminal ht]
    have he : n.edges_out = [] := hterm_edges ht
    unfold Node.get_edge_target
    rw [he]
    rfl
  · have ht' : n.is_terminal = false := by simpa using ht
    rw [reconNode_of_not_terminal ht']
    by_cases hk0 : k = 0
    · subst hk0
      cases hg0 : n.get_edge_target 0 with
      | none =>
        cases hg1 : n.get_edge_target 1 with
        | none => simp [Node.get_edge_target, canonEdges]
        | some t2 => simp [Node.get_edge_target, canonEdges]
      | some l =>
        cases hg1 : n.get_edge_target 1 with
        | none => simp [Node.get_edge_target, canonEdges]
        | some t2 => simp [Node.get_edge_target, canonEdges]
    · by_cases hk1 : k = 1
      · subst hk1
        cases hg0 : n.get_edge_target 0 with
        | none =>
          cases hg1 : n.get_edge_target 1 with
          | none => simp [Node.get_edge_target, canonEdges]
          | some t2 => simp [Node.get_edge_target, canonEdges]
        | some l =>
          cases hg1 : n.get_edge_target 1 with
          | none => simp [Node.get_edge_target, canonEdges]
          | some t2 => simp [Node.get_edge_target, canonEdges]
      · have h0k : ((0 : Nat) == k) = false := by
          rw [beq_eq_false_iff_ne]
          intro hc
          exact hk0 hc.symm
        have h1k : ((1 : Nat) == k) = false := by
          rw [beq_eq_false_iff_ne]
          intro hc
          exact hk1 hc.symm
        have hR : n.get_edge_target k = none := by
          unfold Node.get_edge_target
          have hfn : n.edges_out.find? (fun p => p.2 == k) = none := by
            rw [List.find?_eq_none]
            intro p hp hc
            have hpk : p.2 = k := by simpa using hc
            rcases hkinds p hp with hp0 | hp1
            · apply hk0
              rw [← hpk]
              exact hp0
            · apply hk1
              rw [← hpk]
              exact hp1
          rw [hfn]
        rw [hR]
        cases hg0 : n.get_edge_target 0 <;> cases hg1 : n.get_edge_target 1 <;>
          simp [Node.get_edge_target, canonEdges, h0k, h1k]

theorem get_root_id_mem {ns : List Node} {r : NodeId} (h : get_root_id ns = some r) :
    r ∈ ids ns := by
  unfold get_root_id at h
  cases hf : ns.find? (fun n => n.is_root) with
  | none =>
    rw [hf] at h
    cases h
  | some v =>
    rw [hf] at h
    rw [← Option.some.inj h]
    exact List.mem_map_of_mem Node.id (List.mem_of_find?_eq_some hf)

/-- C1: for a graph satisfying every section-3 invariant, deserializing
its serialized form succeeds and yields an isomorphic graph: same ids,
labels, positions, terminal kinds, the same (source, kind) to target
edge relation, and the same root id. -/
theorem C1_round_trip (ns : List Node)
    (h1 : (ids ns).Nodup)
    (h2 : atMostOneRoot ns)
    (h3 : ∀ n ∈ ns, ∀ p ∈ n.edges_out, p.1 ∈ ids ns)
    (h4 : ∀ n ∈ ns, n.is_terminal = true → n.edges_out = [])
    (h5 : ∃ n ∈ ns, n.is_terminal = true ∧ n.label = "0")
    (h6 : ∃ n ∈ ns, n.is_terminal = true ∧ n.label = "1")
    (h7 : ∀ n ∈ ns, ∀ p ∈ n.edges_out, p.2 = 0 ∨ p.2 = 1)
    (h8 : ∀ n ∈ ns, (n.edges_out.map Prod.snd).Nodup) :
    from_dict (to_dict ns (get_root_id ns)) = .ok (ns.map reconNode, get_root_id ns) ∧
    ids (ns.map reconNode) = ids ns ∧
    (ns.map reconNode).map Node.label = ns.map Node.label ∧
    (ns.map reconNode).map (fun n => (n.x, n.y)) = ns.map (fun n => (n.x, n.y)) ∧
    (ns.map reconNode).map Node.is_terminal = ns.map Node.is_terminal ∧
    (∀ i k, edgeRel (ns.map reconNode) i k = edgeRel ns i k) := by
  have hids_reset : ids (ns.map resetNode) = ids ns := ids_map_resetNode ns
  have hnd_reset : (ids (ns.map resetNode)).Nodup := by
    rw [hids_reset]
    exact h1
  have hids_recon : ids (ns.map reconNode) = ids ns := ids_map reconNode reconNode_id ns
  have hfind0 : ∀ n ∈ ns, findNode (ns.map resetNode) n.id = some (resetNode n) := by
    intro n hn
    rw [findNode_map resetNode (fun _ => rfl), findNode_self_of_nodup h1 hn]
    rfl
  have htgt0 : ∀ n ∈ ns, ∀ p ∈ n.edges_out, p.1 ∈ ids (ns.map resetNode) := by
    intro n hn p hp
    rw [hids_reset]
    exact h3 n hn p hp
  have happly := applyEdges_entryOf ns (ns.map resetNode) hnd_reset h1 hfind0 htgt0
  have hlist : (ns.map resetNode).map (roundTripNode ns) = ns.map reconNode := by
    rw [List.map_map]
    apply map_congr_mem
    intro m hm
    show roundTripNode ns (resetNode m) = reconNode m
    unfold roundTripNode
    have hfm : ns.find? (fun n2 => n2.id == (resetNode m).id) = some m := by
      rw [resetNode_id]
      exact findNode_self_of_nodup h1 hm
    rw [hfm]
  rw [hlist] at happly
  have hmain : from_dict (to_dict ns (get_root_id ns))
      = .ok (ns.map reconNode, get_root_id ns) := by
    simp only [from_dict, to_dict, buildNodes_entryOf ns h1,
      hasTerminalLabeled_reset ns "0" h5, hasTerminalLabeled_reset ns "1" h6,
      happly, Bool.and_self, not_true, if_false, Bool.not_true]
    cases hroot : get_root_id ns with
    | none => simp
    | some r =>
      have hmem : memberId (ns.map reconNode) r = true := by
        rw [memberId_iff, hids_recon]
        exact get_root_id_mem hroot
      simp [hmem]
  refine ⟨hmain, hids_recon, ?_, ?_, ?_, ?_⟩
  · rw [List.map_map]
    exact map_congr_mem (fun m _ => reconNode_label m)
  · rw [List.map_map]
    refine map_congr_mem (fun m _ => ?_)
    show ((reconNode m).x, (reconNode m).y) = (m.x, m.y)
    rw [reconNode_x, reconNode_y]
  · rw [List.map_map]
    exact map_congr_mem (fun m _ => reconNode_is_terminal m)
  · intro i k
    unfold edgeRel
    rw [findNode_map reconNode reconNode_id]
    cases hf : findNode ns i with
    | none => rfl
    | some n0 =>
      show (reconNode n0).get_edge_target k = n0.get_edge_target k
      exact recon_get_edge_target n0 (h4 n0 (findNode_mem hf)) (h7 n0 (findNode_mem hf)) k

/-- C1 witness: round trip of the scenario graph with two terminals
and a rooted decision node p whose low edge goes to 0 and high edge
to 1. -/
theorem C1_witness :
    from_dict (to_dict sampleG (get_root_id sampleG))
        = .ok (sampleG.map reconNode, get_root_id sampleG) ∧
    ids (sampleG.map reconNode) = ids sampleG ∧
    (sampleG.map reconNode).map Node.label = sampleG.map Node.label ∧
    (sampleG.map reconNode).map (fun n => (n.x, n.y)) = sampleG.map (fun n => (n.x, n.y)) ∧
    (sampleG.map reconNode).map Node.is_terminal = sampleG.map Node.is_terminal ∧
    (∀ i k, edgeRel (sampleG.map reconNode) i k = edgeRel sampleG i k) :=
  C1_round_trip sampleG (by decide) (by show rootCount sampleG ≤ 1; decide)
    (by decide) (by decide) (by decide) (by decide) (by decide) (by decide)

end OBDDV
